import Mathlib

/-!
Verification development for the PDF form-field skill scripts:
`check_boxes.py`, `extract_fields.py`, `fill_fields.py`.

Each Python function is shallowly embedded as an executable Lean
definition; floats are modelled as rationals (all comparisons in the
source are exact), Python dicts as insertion-ordered association lists,
and Python's `print` output as inductively-typed message lists carrying
the same data as the formatted strings.
-/

/-- Python dict assignment `d[k] = v`: an existing key keeps its position
and gets the new value; a new key is appended at the end. -/
def dictSet {κ α : Type} [DecidableEq κ] (l : List (κ × α)) (k : κ) (v : α) :
    List (κ × α) :=
  match l with
  | [] => [(k, v)]
  | (k', v') :: rest =>
    if k' = k then (k, v) :: rest else (k', v') :: dictSet rest k v

/-- Python set `s.add(k)`: membership-only, duplicates are no-ops. -/
def setAdd (l : List String) (k : String) : List String :=
  if k ∈ l then l else l ++ [k]

namespace CheckBoxes

/-- A `[x0, y0, x1, y1]` rectangle from `check_boxes.py` (origin bottom-left). -/
structure Rect where
  x0 : ℚ
  y0 : ℚ
  x1 : ℚ
  y1 : ℚ
deriving DecidableEq

/-- `_intersects` from `check_boxes.py`:
`not (a[0] >= b[2] or a[2] <= b[0] or a[1] >= b[3] or a[3] <= b[1])`. -/
def _intersects (a b : Rect) : Bool :=
  !(decide (a.x0 ≥ b.x1) || decide (a.x1 ≤ b.x0) ||
    decide (a.y0 ≥ b.y1) || decide (a.y1 ≤ b.y0))

/-- The `entry_text` sub-dict: only its `font_size` key is read
(`fi["entry_text"].get("font_size", 14)`); `none` models an absent key. -/
structure EntryText where
  font_size : Option ℚ
deriving DecidableEq

/-- One element of `fields_data["form_fields"]`. -/
structure Field where
  label_bounding_box : Rect
  entry_bounding_box : Rect
  page_number : Option Nat
  description : String
  entry_text : Option EntryText
deriving DecidableEq

/-- The `rect_type` tag: `"label"` or `"entry"`. -/
inductive RectType
  | label
  | entry
deriving DecidableEq

/-- One line printed by `validate`, carrying the data interpolated into the
corresponding format string of the source. -/
inductive Msg
  | checking (n : Nat)
  | overlapSame (desc : String)
  | overlap (ti : RectType) (di : String) (tj : RectType) (dj : String)
  | undersized (desc : String)
  | tooMany
  | success
deriving DecidableEq

/-- An element of the `rects` list: `(rect, rect_type, field)`.  The `Nat`
is the index of the owning field, standing in for Python object identity
(`fi is fj` holds exactly when both tuples reference the same field dict,
i.e. the same list element). -/
abbrev LRect := Rect × RectType × Nat × Field

/-- `rects` built by the loop
`for f in form_fields: rects.append((label...)); rects.append((entry...))`. -/
def rectsOf (fs : List Field) : List LRect :=
  fs.enum.flatMap fun p =>
    [(p.2.label_bounding_box, RectType.label, p.1, p.2),
     (p.2.entry_bounding_box, RectType.entry, p.1, p.2)]

/-- The failure line appended for an overlapping pair: the
`fi is fj` branch selects the label-vs-own-entry wording. -/
def overlapMsgOf (ti : RectType) (ii : Nat) (fi : Field)
    (tj : RectType) (ij : Nat) (fj : Field) : Msg :=
  if ii = ij then .overlapSame fi.description
  else .overlap ti fi.description tj fj.description

/-- The inner loop `for j in range(i + 1, len(rects))` of `validate`, run
for the rectangle `(ri, ti, fi)` (with owning index `ii`) against the
remaining rectangles.  Returns the updated error count, the messages
appended, and whether the `errors >= 20` early return fired. -/
def innerLoop (ri : Rect) (ti : RectType) (ii : Nat) (fi : Field) :
    List LRect → Nat → Nat × List Msg × Bool
  | [], errors => (errors, [], false)
  | (rj, tj, ij, fj) :: rest, errors =>
    if fi.page_number ≠ fj.page_number then
      innerLoop ri ti ii fi rest errors
    else if _intersects ri rj then
      if errors + 1 ≥ 20 then
        (errors + 1, [overlapMsgOf ti ii fi tj ij fj, .tooMany], true)
      else
        let r := innerLoop ri ti ii fi rest (errors + 1)
        (r.1, overlapMsgOf ti ii fi tj ij fj :: r.2.1, r.2.2)
    else innerLoop ri ti ii fi rest errors

/-- The outer loop `for i, (ri, ti, fi) in enumerate(rects)` of `validate`,
including the entry-height check that follows the inner loop. -/
def outerLoop : List LRect → Nat → Nat × List Msg × Bool
  | [], errors => (errors, [], false)
  | (ri, ti, ii, fi) :: rest, errors =>
    let r1 := innerLoop ri ti ii fi rest errors
    if r1.2.2 then (r1.1, r1.2.1, true)
    else
      let r2 : Nat × List Msg :=
        if ti = RectType.entry then
          match fi.entry_text with
          | some et =>
            if ri.y1 - ri.y0 < et.font_size.getD 14 then
              (r1.1 + 1, [Msg.undersized fi.description])
            else (r1.1, [])
          | none => (r1.1, [])
        else (r1.1, [])
      let r3 := outerLoop rest r2.1
      (r3.1, r1.2.1 ++ r2.2 ++ r3.2.1, r3.2.2)

/-- The `fields_data` argument of `validate`; only `form_fields` is read. -/
structure FieldsData where
  form_fields : List Field
deriving DecidableEq

/-- `validate` from `check_boxes.py`. -/
def validate (d : FieldsData) : List Msg :=
  let fs := d.form_fields
  let r := outerLoop (rectsOf fs) 0
  if r.2.2 then Msg.checking fs.length :: r.2.1
  else
    Msg.checking fs.length ::
      (r.2.1 ++ if r.1 = 0 then [Msg.success] else [])

/-- Failure lines: the messages whose source text starts with `FAILURE`. -/
def isFailure : Msg → Bool
  | .overlapSame _ => true
  | .overlap _ _ _ _ => true
  | .undersized _ => true
  | _ => false

/-- Overlap failure lines (the ones whose emission checks the error cap). -/
def isOverlapMsg : Msg → Bool
  | .overlapSame _ => true
  | .overlap _ _ _ _ => true
  | _ => false

/-- 21 fields, each on its own page, each with an entry box of height 1
(strictly below its font size 14) and a label disjoint from the entry. -/
def d21 : FieldsData :=
  ⟨(List.range 21).map fun k =>
    ⟨⟨0, 0, 1, 1⟩, ⟨3, 0, 4, 1⟩, some k, "", some ⟨some 14⟩⟩⟩

/-- 21 fields on one page whose boxes all coincide: every rectangle pair
on the page overlaps, so the overlap cap fires. -/
def d20ov : FieldsData :=
  ⟨(List.range 21).map fun _ =>
    ⟨⟨0, 0, 5, 5⟩, ⟨0, 0, 5, 5⟩, some 1, "", none⟩⟩

end CheckBoxes

namespace ExtractFields

/-- A page annotation as read by `extract_field_info`: `fid` is the
identifier resolved by `_full_field_id` (the Field Tree Walker, embedded
separately in namespace `Walker`); `rect` is
`[float(v) for v in ann.get("/Rect", [])]` (so `[]` when `/Rect` is
absent); `ap` is the list of keys of `ann["/AP"]["/N"]`, with `none`
modelling the `KeyError`/`TypeError` path (missing or non-dict `/N`). -/
structure Ann where
  fid : Option String
  rect : List ℚ
  ap : Option (List String)
deriving DecidableEq

/-- One page: only its annotation list is read. -/
structure Page where
  annots : List Ann
deriving DecidableEq

/-- One value of `reader.get_fields()`: has-kids flag (Python truthiness of
`field.get("/Kids")`), field-type code `/FT`, and the `/_States_` list —
read as plain strings for `/Btn` fields and as (value, text) pairs for
`/Ch` fields. -/
structure RawField where
  hasKids : Bool
  ft : Option String
  states : List String
  chStates : List (String × String)
deriving DecidableEq

/-- The reader: the fields dict (insertion-ordered, unique keys in a real
dict) and the page list. -/
structure Model where
  fields : List (String × RawField)
  pages : List Page
deriving DecidableEq

/-- The per-field JSON dict built by the script; an absent key is `none`. -/
structure Desc where
  field_id : String
  type : String
  checked_value : Option String := none
  unchecked_value : Option String := none
  choice_options : Option (List (String × String)) := none
  page : Option Nat := none
  rect : Option (List ℚ) := none
  radio_options : Option (List (String × List ℚ)) := none
deriving DecidableEq

/-- `_field_dict` from `extract_fields.py`.  Returns `none` exactly where
the source raises `StopIteration`: a two-state `/Btn` whose states are
both `"/Off"` (then `next(s for s in states if s != "/Off")` finds
nothing). -/
def _field_dict (field : RawField) (fid : String) : Option Desc :=
  if field.ft = some "/Tx" then some { field_id := fid, type := "text" }
  else if field.ft = some "/Btn" then
    match field.states with
    | [a, b] =>
      if a = "/Off" ∨ b = "/Off" then
        match [a, b].find? (fun s => s != "/Off") with
        | some s =>
          some { field_id := fid, type := "checkbox",
                 checked_value := some s, unchecked_value := some "/Off" }
        | none => none
      else
        some { field_id := fid, type := "checkbox",
               checked_value := some a, unchecked_value := some b }
    | _ => some { field_id := fid, type := "checkbox" }
  else if field.ft = some "/Ch" then
    some { field_id := fid, type := "choice",
           choice_options := some field.chStates }
  else
    some { field_id := fid,
           type := "unknown (" ++
             (match field.ft with | some s => s | none => "None") ++ ")" }

/-- The first loop of `extract_field_info`: builds `by_id` (kid-less
fields classified by `_field_dict`) and `possible_radios` (kid-bearing
`/Btn` field ids); `none` propagates a `_field_dict` crash.  The loop is
written as explicit recursion over the remaining fields with the
accumulated `(by_id, possible_radios)` state. -/
def buildById :
    List (String × RawField) → List (String × Desc) × List String →
      Option (List (String × Desc) × List String)
  | [], acc => some acc
  | (fid, f) :: rest, acc =>
    if f.hasKids then
      if f.ft = some "/Btn" then buildById rest (acc.1, setAdd acc.2 fid)
      else buildById rest acc
    else
      match _field_dict f fid with
      | some d => buildById rest (dictSet acc.1 fid d, acc.2)
      | none => none

/-- Processing of one annotation in the page scan of `extract_field_info`;
`pg` is the 1-based page number, the state is `(by_id, radios)`. -/
def stepAnn (possible : List String) (pg : Nat)
    (st : List (String × Desc) × List (String × Desc)) (a : Ann) :
    List (String × Desc) × List (String × Desc) :=
  match a.fid with
  | none => st
  | some fid =>
    match st.1.lookup fid with
    | some d =>
      (dictSet st.1 fid { d with page := some pg, rect := some a.rect }, st.2)
    | none =>
      if fid ∈ possible then
        match a.ap with
        | none => st
        | some sts =>
          match sts.filter (fun v => v != "/Off") with
          | [v] =>
            match st.2.lookup fid with
            | none =>
              (st.1, dictSet st.2 fid
                { field_id := fid, type := "radio_group", page := some pg,
                  radio_options := some [(v, a.rect)] })
            | some d =>
              (st.1, dictSet st.2 fid
                { d with
                    radio_options :=
                      some ((d.radio_options.getD []) ++ [(v, a.rect)]) })
          | _ => st
      else st

/-- The inner loop `for ann in page.get("/Annots", [])` on one page. -/
def annsPass (possible : List String) (pg : Nat) :
    List Ann → List (String × Desc) × List (String × Desc) →
      List (String × Desc) × List (String × Desc)
  | [], st => st
  | a :: rest, st => annsPass possible pg rest (stepAnn possible pg st a)

/-- The outer loop `for page_idx, page in enumerate(reader.pages)`, fed
the enumerated page list (`pg` is `page_idx + 1`). -/
def pagesPass (possible : List String) :
    List (Nat × Page) → List (String × Desc) × List (String × Desc) →
      List (String × Desc) × List (String × Desc)
  | [], st => st
  | (idx, p) :: rest, st =>
    pagesPass possible rest (annsPass possible (idx + 1) p.annots st)

/-- The page scan of `extract_field_info`, starting from the built
`by_id` and an empty `radios` dict. -/
def annotPass (byId : List (String × Desc)) (possible : List String)
    (pages : List Page) : List (String × Desc) × List (String × Desc) :=
  pagesPass possible pages.enum (byId, [])

/-- The fallback of `sort_key`'s rect expression:
`f.get("radio_options", [{}])[0].get("rect") or [0, 0, 0, 0]`.
(The source raises `IndexError` when `radio_options` is present but empty;
produced descriptors never have an empty option list, and the total model
returns the sentinel there.) -/
def sortFallback (f : Desc) : List ℚ :=
  match f.radio_options with
  | some ((_, r) :: _) => if r.isEmpty then [0, 0, 0, 0] else r
  | _ => [0, 0, 0, 0]

/-- `r = f.get("rect") or (...)` with Python list truthiness
(`[]` is falsy). -/
def sortRect (f : Desc) : List ℚ :=
  match f.rect with
  | some r => if r.isEmpty then sortFallback f else r
  | none => sortFallback f

/-- `sort_key`: the tuple `(f.get("page", 0), -r[1], r[0])`, as a rational
triple.  (The source raises `IndexError` when the chosen rect has fewer
than two coordinates; modelled totally with a 0 default.) -/
def sortKey (f : Desc) : ℚ × ℚ × ℚ :=
  let r := sortRect f
  ((f.page.getD 0 : ℚ), -(r.getD 1 0), r.getD 0 0)

/-- Lexicographic comparison of key triples, i.e. Python tuple `<=`. -/
def keyLe (a b : ℚ × ℚ × ℚ) : Bool :=
  decide (a.1 < b.1) ||
    (decide (a.1 = b.1) &&
      (decide (a.2.1 < b.2.1) ||
        (decide (a.2.1 = b.2.1) && decide (a.2.2 ≤ b.2.2))))

/-- The comparison `result.sort(key=sort_key)` sorts by. -/
def descLe (a b : Desc) : Bool := keyLe (sortKey a) (sortKey b)

/-- `extract_field_info` from `extract_fields.py`.  Returns the sorted
result list together with the field ids warned about (the
`"Warning: could not locate field ..., skipping"` prints, in emission
order); `none` models the `StopIteration` crash of `_field_dict`.
`result.sort(key=sort_key)` is Python's stable sort by the key; a stable
sort under a total preorder is unique, so it is modelled by the stable
insertion sort. -/
def extract_field_info (m : Model) : Option (List Desc × List String) :=
  if m.fields.isEmpty then some ([], [])
  else
    match buildById m.fields ([], []) with
    | none => none
    | some (byId, possible) =>
      let st := annotPass byId possible m.pages
      let located := (st.1.map Prod.snd).filter (fun d => d.page.isSome)
      let warns :=
        ((st.1.map Prod.snd).filter (fun d => d.page.isNone)).map Desc.field_id
      let result := located ++ st.2.map Prod.snd
      some (List.insertionSort (fun a b => descLe a b = true) result, warns)

/-- The option one annotation contributes to its radio group: its single
non-off appearance-state token with its rectangle, or nothing when the
appearance-state set is missing or its non-off tokens do not number
exactly one (the skip conditions of the radio branch). -/
def radioContribution (a : Ann) : Option (String × List ℚ) :=
  match a.ap with
  | none => none
  | some sts =>
    match sts.filter (fun v => v != "/Off") with
    | [v] => some (v, a.rect)
    | _ => none

/-- All option contributions the document's annotations make to the radio
group `gid`, in page-then-annotation order. -/
def radioContribs (m : Model) (gid : String) : List (String × List ℚ) :=
  ((m.pages.flatMap Page.annots).filter
    (fun a => a.fid == some gid)).filterMap radioContribution

/-- The order the source sorts by: ascending page, then descending
second rectangle coordinate `r[1]` (the bottom edge), then ascending
`r[0]`. -/
def sortedByCodeKey (l : List Desc) : Prop :=
  List.Pairwise (fun a b => descLe a b = true) l

/-- Modelled from the claim's words, for comparison with the code's
order: the key using the rectangle's top coordinate `r[3]` (descending)
instead of `r[1]`. -/
def claimTopKey (f : Desc) : ℚ × ℚ × ℚ :=
  let r := sortRect f
  ((f.page.getD 0 : ℚ), -(r.getD 3 0), r.getD 0 0)

/-- Comparison by the claim's key. -/
def claimTopLe (a b : Desc) : Bool := keyLe (claimTopKey a) (claimTopKey b)

/-- The order the claim asserts: ascending page, then descending top
coordinate, then ascending left coordinate. -/
def sortedByClaimKey (l : List Desc) : Prop :=
  List.Pairwise (fun a b => claimTopLe a b = true) l

/-- One leaf text field that no page annotation resolves to. -/
def mC2 : Model :=
  { fields := [("A", ⟨false, some "/Tx", [], []⟩)], pages := [⟨[]⟩] }

/-- Two leaf text fields of which only `B` has a matching annotation. -/
def mC2W : Model :=
  { fields := [("A", ⟨false, some "/Tx", [], []⟩),
               ("B", ⟨false, some "/Tx", [], []⟩)],
    pages := [⟨[⟨some "B", [0, 0, 1, 1], none⟩]⟩] }

/-- The extraction output for `mC2W`. -/
def outC2W : List Desc := ((extract_field_info mC2W).getD ([], [])).1

/-- Two text fields on page 1: `A` with rect `[0, 10, 10, 20]` (bottom 10,
top 20) and `B` with rect `[5, 5, 10, 30]` (bottom 5, top 30).  Sorting by
descending bottom edge puts `A` first; sorting by descending top edge
would put `B` first. -/
def mC3 : Model :=
  { fields := [("A", ⟨false, some "/Tx", [], []⟩),
               ("B", ⟨false, some "/Tx", [], []⟩)],
    pages := [⟨[⟨some "A", [0, 10, 10, 20], none⟩,
                ⟨some "B", [5, 5, 10, 30], none⟩]⟩] }

/-- The extraction output for `mC3`. -/
def outC3 : List Desc := ((extract_field_info mC3).getD ([], [])).1

/-- A kid-bearing `/Btn` parent `G` with two unambiguous member widgets,
one ambiguous widget (two non-off tokens), and a second parent `H` whose
only widget has no non-off token. -/
def mC5W : Model :=
  { fields := [("G", ⟨true, some "/Btn", [], []⟩),
               ("H", ⟨true, some "/Btn", [], []⟩)],
    pages := [⟨[⟨some "G", [0, 0, 10, 10], some ["/Off", "/Opt1"]⟩,
                ⟨some "G", [20, 0, 30, 10], some ["/Off", "/Opt2"]⟩,
                ⟨some "G", [40, 0, 50, 10], some ["/Off", "/X", "/Y"]⟩,
                ⟨some "H", [0, 0, 1, 1], some ["/Off"]⟩]⟩] }

/-- The extraction output for `mC5W`. -/
def outC5W : List Desc := ((extract_field_info mC5W).getD ([], [])).1

/-- The contributions one annotation list makes to radio group `gid`. -/
def contribsOfAnns (anns : List Ann) (gid : String) :
    List (String × List ℚ) :=
  (anns.filter (fun a => a.fid == some gid)).filterMap radioContribution

/-- The radios-dict invariant tracked through the page scan: group `gid`
is present exactly when it has accumulated contributions, and then
carries exactly them, typed as a radio group under its own id. -/
def RadioInv (radios : List (String × Desc)) (gid : String)
    (cs : List (String × List ℚ)) : Prop :=
  match radios.lookup gid with
  | none => cs = []
  | some d =>
    d.field_id = gid ∧ d.type = "radio_group" ∧
      d.radio_options = some cs ∧ cs ≠ []

end ExtractFields

namespace FillFields

/-- The per-field dict built by `_get_field_info` in `fill_fields.py`.
`radio_options` keeps only the values (the fill-side options carry no
rect); `choice_options` keeps (value, text) pairs. -/
structure FInfo where
  field_id : String
  type : String
  checked_value : Option String := none
  unchecked_value : Option String := none
  choice_options : List (String × String) := []
  radio_options : List String := []
  page : Option Nat := none
deriving DecidableEq

/-- The per-field classification inside `_get_field_info`
(`fill_fields.py` lines 34–45): run for each kid-less field. -/
def fillFieldInfo (fid : String) (field : ExtractFields.RawField) : FInfo :=
  let base : FInfo := { field_id := fid, type := "text" }
  if field.ft = some "/Btn" then
    match field.states with
    | [a, b] =>
      { base with
          type := "checkbox",
          checked_value := some (([a, b].find? (fun s => s != "/Off")).getD a),
          unchecked_value :=
            some (if a = "/Off" ∨ b = "/Off" then "/Off" else b) }
    | _ => { base with type := "checkbox" }
  else if field.ft = some "/Ch" then
    { base with type := "choice", choice_options := field.chStates }
  else base

/-- One error line printed by `main`'s validation loop, carrying the data
interpolated into the corresponding format string. -/
inductive Msg
  | unknownField (fid : String)
  | pageMismatch (fid : String) (got expected : Nat)
  | invalidCheckbox (fid value : String) (cv uv : Option String)
  | invalidRadio (fid value : String) (opts : List String)
  | invalidChoice (fid value : String) (opts : List String)
deriving DecidableEq

/-- `_validate_value` from `fill_fields.py`; `none` is the `return None`
success path.  A checkbox whose model lacks `checked_value` /
`unchecked_value` compares the string value against Python `None`, which
is always unequal — hence the `Option String` comparison. -/
def _validate_value (info : FInfo) (value : String) : Option Msg :=
  if info.type = "checkbox" then
    if some value ≠ info.checked_value ∧ some value ≠ info.unchecked_value then
      some (.invalidCheckbox info.field_id value
        info.checked_value info.unchecked_value)
    else none
  else if info.type = "radio_group" then
    if value ∈ info.radio_options then none
    else some (.invalidRadio info.field_id value info.radio_options)
  else if info.type = "choice" then
    if value ∈ info.choice_options.map Prod.fst then none
    else some (.invalidChoice info.field_id value
      (info.choice_options.map Prod.fst))
  else none

/-- One element of the loaded `field_values.json` list; `none` models an
absent key. -/
structure Entry where
  field_id : String
  value : Option String := none
  page : Option Nat := none
deriving DecidableEq

/-- Python truthiness of `info.get("page")` / `entry.get("page")`:
absent or zero is falsy. -/
def truthyPage : Option Nat → Bool
  | none => false
  | some n => n != 0

/-- The error lines printed for one entry by the validation loop of
`main` (`fill_fields.py` lines 104–118): an unknown field id short-circuits
via `continue`; otherwise the page check and the value check each may
contribute a line. -/
def validateEntry (fieldInfo : List (String × FInfo)) (e : Entry) :
    List Msg :=
  match fieldInfo.lookup e.field_id with
  | none => [.unknownField e.field_id]
  | some info =>
    (if truthyPage info.page ∧ truthyPage e.page ∧ e.page ≠ info.page then
       [.pageMismatch e.field_id (e.page.getD 0) (info.page.getD 0)]
     else []) ++
    (match e.value with
     | some v =>
       match _validate_value info v with
       | some m => [m]
       | none => []
     | none => [])

/-- All error lines of the batch, in print order (`has_error` is true iff
this list is nonempty: every `has_error = True` assignment in the source
is paired with exactly one print). -/
def validateAll (fieldInfo : List (String × FInfo)) (entries : List Entry) :
    List Msg :=
  entries.flatMap (validateEntry fieldInfo)

/-- `by_page.setdefault(pg, {})[fid] = value` for one entry. -/
def insertPage (acc : List (Nat × List (String × String))) (pg : Nat)
    (fid v : String) : List (Nat × List (String × String)) :=
  match acc with
  | [] => [(pg, [(fid, v)])]
  | (p, mp) :: rest =>
    if p = pg then (p, dictSet mp fid v) :: rest
    else (p, mp) :: insertPage rest pg fid v

/-- The body of the grouping loop for one entry: entries without a value
are skipped, the page defaults to 1 (`entry.get("page", 1)`). -/
def byPageStep (acc : List (Nat × List (String × String))) (e : Entry) :
    List (Nat × List (String × String)) :=
  match e.value with
  | none => acc
  | some v => insertPage acc (e.page.getD 1) e.field_id v

/-- The grouping loop of `main` (`fill_fields.py` lines 124–129). -/
def byPage (entries : List Entry) : List (Nat × List (String × String)) :=
  entries.foldl byPageStep []

/-- `main` from `fill_fields.py` after input loading: validation, then the
page-grouped write plan.  `.error msgs` models printing `msgs` and calling
`sys.exit(1)` before any write; `.ok plan` carries the page-keyed value
dicts handed to `update_page_form_field_values` (page `pg` writes to
`writer.pages[pg - 1]`). -/
def fillMain (fieldInfo : List (String × FInfo)) (entries : List Entry) :
    Except (List Msg) (List (Nat × List (String × String))) :=
  let msgs := validateAll fieldInfo entries
  if msgs.isEmpty then .ok (byPage entries) else .error msgs

end FillFields

namespace Walker

/-- A raw field-tree node: optional `/T` local name and optional `/Parent`
link; the parent object reference is modelled as an index into an arena
of nodes (the standard shallow embedding of object graphs). -/
structure PNode where
  name : Option String
  parent : Option Nat
deriving DecidableEq

/-- The object graph the walker runs over. -/
abbrev Arena := List PNode

/-- `".".join(reversed(parts)) if parts else None`. -/
def finish (parts : List String) : Option String :=
  if parts.isEmpty then none else some (String.intercalate "." parts.reverse)

/-- `_full_field_id` (textually identical in `extract_fields.py` and
`fill_fields.py`), stepped with explicit fuel: the source's `while node:`
loop has no bound of its own, so `none` means the loop has not exited
within `fuel` iterations, and `some r` is the value the source returns.
`parts` is the leaf-first accumulator of the source.  (A dangling index
has no Python counterpart; the out-of-range case exits the loop.) -/
def fullFieldIdFuel (a : Arena) :
    Option Nat → List String → Nat → Option (Option String)
  | _, _, 0 => none
  | none, parts, _ + 1 => some (finish parts)
  | some i, parts, fuel + 1 =>
    match a[i]? with
    | none => some (finish parts)
    | some nd =>
      fullFieldIdFuel a nd.parent
        (match nd.name with
         | some n => parts ++ [n]
         | none => parts) fuel

/-- The walker loops forever from node `i`: no amount of fuel reaches the
loop exit. -/
def walkerDiverges (a : Arena) (i : Nat) : Prop :=
  ∀ fuel, fullFieldIdFuel a (some i) [] fuel = none

/-- A one-node arena whose node is its own parent: a cyclic `/Parent`
chain. -/
def cyclicArena : Arena := [⟨some "X", some 0⟩]

/-- A two-node acyclic arena: root `A` with child `B`. -/
def chainArena : Arena := [⟨some "A", none⟩, ⟨some "B", some 0⟩]

end Walker

namespace FillFields

/-- A two-field model: a checkbox `Agree` and a text field `Name`, both
recorded on page 1. -/
def fiW : List (String × FInfo) :=
  [("Agree", { field_id := "Agree", type := "checkbox",
               checked_value := some "/Yes", unchecked_value := some "/Off",
               page := some 1 }),
   ("Name", { field_id := "Name", type := "text", page := some 1 })]

/-- A batch with one valid entry and one invalid checkbox value. -/
def entriesBad : List Entry :=
  [⟨"Name", some "Ann", none⟩, ⟨"Agree", some "/Maybe", none⟩]

/-- A fully valid batch with one page-less entry. -/
def entriesGood : List Entry := [⟨"Name", some "Bob", none⟩]

end FillFields

/-! ## Helper lemmas -/

theorem lookup_dictSet {κ α : Type} [DecidableEq κ] [BEq κ] [LawfulBEq κ]
    (l : List (κ × α)) (k k' : κ) (v : α) :
    (dictSet l k' v).lookup k = if k = k' then some v else l.lookup k := by
  induction l with
  | nil =>
    by_cases h : k = k'
    · subst h; simp [dictSet, List.lookup]
    · have hb : (k == k') = false := by simp [h]
      simp [dictSet, List.lookup, h, hb]
  | cons p rest ih =>
    obtain ⟨a, b⟩ := p
    by_cases ha : a = k'
    · subst ha
      by_cases h : k = a
      · subst h; simp [dictSet, List.lookup]
      · have hb : (k == a) = false := by simp [h]
        simp [dictSet, List.lookup, h, hb]
    · by_cases hka : k = a
      · subst hka
        simp [dictSet, List.lookup, ha]
      · have hb : (k == a) = false := by simp [hka]
        by_cases h : k = k'
        · subst h
          simp [dictSet, List.lookup, ha, hb, ih]
        · simp [dictSet, List.lookup, ha, hb, h, ih]

theorem lookup_mem {κ α : Type} [BEq κ] [LawfulBEq κ]
    {l : List (κ × α)} {k : κ} {v : α} (h : l.lookup k = some v) :
    (k, v) ∈ l := by
  induction l with
  | nil => simp [List.lookup] at h
  | cons p rest ih =>
    obtain ⟨a, b⟩ := p
    by_cases hka : k = a
    · subst hka
      simp [List.lookup] at h
      simp [h]
    · have hb : (k == a) = false := by simp [hka]
      simp only [List.lookup, hb] at h
      exact List.mem_cons_of_mem _ (ih h)

theorem lookup_isSome_of_mem {κ α : Type} [BEq κ] [LawfulBEq κ]
    {l : List (κ × α)} {k : κ} {v : α} (h : (k, v) ∈ l) :
    (l.lookup k).isSome := by
  induction l with
  | nil => simp at h
  | cons p rest ih =>
    obtain ⟨a, b⟩ := p
    rcases List.mem_cons.mp h with heq | hmem'
    · injection heq with h1 h2
      subst h1
      simp [List.lookup]
    · by_cases hka : k = a
      · subst hka; simp [List.lookup]
      · have hb : (k == a) = false := by simp [hka]
        simp only [List.lookup, hb]
        exact ih hmem'

theorem not_mem_of_lookup_eq_none {κ α : Type} [BEq κ] [LawfulBEq κ]
    {l : List (κ × α)} {k : κ} (h : l.lookup k = none) (v : α) :
    (k, v) ∉ l := by
  intro hmem
  have hs := lookup_isSome_of_mem hmem
  rw [h] at hs
  simp at hs

theorem mem_dictSet {κ α : Type} [DecidableEq κ]
    {l : List (κ × α)} {k : κ} {v : α} {p : κ × α}
    (h : p ∈ dictSet l k v) : p ∈ l ∨ p = (k, v) := by
  induction l with
  | nil => simp [dictSet] at h; simp [h]
  | cons q rest ih =>
    obtain ⟨a, b⟩ := q
    by_cases ha : a = k
    · subst ha
      simp [dictSet] at h
      rcases h with h | h
      · right; simp [h]
      · left; exact List.mem_cons_of_mem _ h
    · simp [dictSet, ha] at h
      rcases h with h | h
      · left; simp [h]
      · rcases ih h with h' | h'
        · left; exact List.mem_cons_of_mem _ h'
        · right; exact h'

/-! ## C7: `_intersects` symmetry and positive-area semantics -/

theorem intersects_iff (a b : CheckBoxes.Rect) :
    CheckBoxes._intersects a b = true ↔
      (a.x0 < b.x1 ∧ b.x0 < a.x1 ∧ a.y0 < b.y1 ∧ b.y0 < a.y1) := by
  simp [CheckBoxes._intersects, not_le, and_assoc]

/-- C7: `_intersects` is symmetric; rectangles sharing only an edge (such
as `[0,0,10,10]` and `[10,0,20,10]`) do not intersect; and, for
nondegenerate rectangles, `_intersects` holds exactly when the
intersection has positive extent in both axes. -/
theorem C7_intersects_symmetric_positive_area :
    (∀ a b : CheckBoxes.Rect,
        CheckBoxes._intersects a b = CheckBoxes._intersects b a) ∧
      CheckBoxes._intersects ⟨0, 0, 10, 10⟩ ⟨10, 0, 20, 10⟩ = false ∧
      (∀ a b : CheckBoxes.Rect, a.x0 < a.x1 → a.y0 < a.y1 →
        b.x0 < b.x1 → b.y0 < b.y1 →
        (CheckBoxes._intersects a b = true ↔
          (max a.x0 b.x0 < min a.x1 b.x1 ∧ max a.y0 b.y0 < min a.y1 b.y1))) := by
  refine ⟨?_, by decide, ?_⟩
  · intro a b
    rw [Bool.eq_iff_iff, intersects_iff, intersects_iff]
    tauto
  · intro a b hax hay hbx hby
    rw [intersects_iff]
    simp only [max_lt_iff, lt_min_iff]
    tauto

/-- Witness for C7 at the concrete overlapping pair
`[0,0,10,10]`, `[5,0,15,10]`. -/
theorem C7_intersects_symmetric_positive_area_witness :
    ((0 : ℚ) < 10 ∧ (0 : ℚ) < 10 ∧ (5 : ℚ) < 15 ∧ (0 : ℚ) < 10) ∧
      (CheckBoxes._intersects ⟨0, 0, 10, 10⟩ ⟨5, 0, 15, 10⟩ = true ↔
        (max (0 : ℚ) 5 < min 10 15 ∧ max (0 : ℚ) 0 < min 10 10)) :=
  ⟨by norm_num,
   C7_intersects_symmetric_positive_area.2.2 ⟨0, 0, 10, 10⟩ ⟨5, 0, 15, 10⟩
     (by norm_num) (by norm_num) (by norm_num) (by norm_num)⟩

/-! ## C8: the entry-height boundary is non-strict -/

/-- C8: for a form with one field whose entry box carries target text,
the undersized-entry failure is reported exactly when the entry height
`y1 - y0` is strictly below the font size (which defaults to 14); a
height equal to the font size passes. -/
theorem C8_entry_height_boundary (lb eb : CheckBoxes.Rect)
    (pg : Option Nat) (desc : String) (fsz : Option ℚ) :
    (CheckBoxes.Msg.undersized desc ∈
        CheckBoxes.validate ⟨[⟨lb, eb, pg, desc, some ⟨fsz⟩⟩]⟩) ↔
      eb.y1 - eb.y0 < fsz.getD 14 := by
  by_cases hI : CheckBoxes._intersects lb eb = true <;>
    by_cases hH : eb.y1 - eb.y0 < fsz.getD 14 <;>
      simp [CheckBoxes.validate, CheckBoxes.rectsOf, CheckBoxes.outerLoop,
        CheckBoxes.innerLoop, CheckBoxes.overlapMsgOf, List.enum, hI, hH]

/-! ## C9: the walker has no cycle guard -/

theorem cyclicArena_no_exit (fuel : Nat) :
    ∀ parts, Walker.fullFieldIdFuel Walker.cyclicArena (some 0) parts fuel
      = none := by
  induction fuel with
  | zero => intro parts; rfl
  | succ n ih =>
    intro parts
    simp only [Walker.fullFieldIdFuel, Walker.cyclicArena]
    exact ih _

/-- C9 counterexample: on a one-node arena whose node is its own parent,
the `while node:` loop of `_full_field_id` never exits — no iteration
bound suffices — so the walker does not terminate on every input and in
particular has no max-depth cutoff acting as a cycle guard. -/
theorem C9_cex_walker_diverges_on_cycle :
    Walker.walkerDiverges Walker.cyclicArena 0 :=
  fun fuel => cyclicArena_no_exit fuel []

/-- C9 (amended): the walker terminates on every node whose parent chain
is acyclic — here, every parent index strictly below the child's index —
because each step strictly descends; the source has no max-depth cutoff,
and on a cyclic parent chain it does not terminate. -/
theorem C9_walker_terminates_on_acyclic (a : Walker.Arena)
    (hacyc : ∀ (j : Nat) (h : j < a.length),
      match (a.get ⟨j, h⟩).parent with
      | some p => p < j
      | none => True) :
    ∀ (i : Nat) (parts : List String), ∃ fuel r,
      Walker.fullFieldIdFuel a (some i) parts fuel = some r := by
  intro i
  induction i using Nat.strong_induction_on with
  | _ i ih =>
    intro parts
    cases hnd : a[i]? with
    | none =>
      exact ⟨1, Walker.finish parts, by
        simp [Walker.fullFieldIdFuel, hnd]⟩
    | some nd =>
      have hi : i < a.length := (List.getElem?_eq_some_iff.mp hnd).1
      cases hp : nd.parent with
      | none =>
        refine ⟨2, Walker.finish (match nd.name with
          | some n => parts ++ [n]
          | none => parts), ?_⟩
        simp [Walker.fullFieldIdFuel, hnd, hp]
      | some p =>
        have hget : a.get ⟨i, hi⟩ = nd := by
          have := List.getElem?_eq_some_iff.mp hnd
          obtain ⟨h', he⟩ := this
          simpa [List.get_eq_getElem] using he
        have hpi : p < i := by
          have := hacyc i hi
          rw [hget, hp] at this
          exact this
        obtain ⟨fuel, r, hf⟩ := ih p hpi
          (match nd.name with | some n => parts ++ [n] | none => parts)
        exact ⟨fuel + 1, r, by simp [Walker.fullFieldIdFuel, hnd, hp, hf]⟩

/-- Witness for the amended C9 on the concrete two-node chain arena. -/
theorem C9_walker_terminates_on_acyclic_witness :
    ∃ fuel r,
      Walker.fullFieldIdFuel Walker.chainArena (some 1) [] fuel = some r :=
  C9_walker_terminates_on_acyclic Walker.chainArena
    (by
      intro j h
      have hj : j < 2 := by simpa [Walker.chainArena] using h
      interval_cases j <;> simp [Walker.chainArena]) 1 []

/-! ## C4: two-state checkbox value assignment -/

/-- C4: for a two-state `/Btn` field with distinct states, both scripts
assign `checked_value`/`unchecked_value` the same way: when one state is
the off-token `"/Off"`, the other state becomes `checked_value` and
`"/Off"` becomes `unchecked_value`, regardless of declaration order;
when neither state is the off-token, the first and second declared
states become `checked_value` and `unchecked_value` respectively. -/
theorem C4_checkbox_state_assignment (fid a b : String)
    (chs : List (String × String)) (hab : a ≠ b) :
    (a = "/Off" →
      (ExtractFields._field_dict ⟨false, some "/Btn", [a, b], chs⟩ fid).map
          (fun d => (d.checked_value, d.unchecked_value)) =
        some (some b, some "/Off") ∧
      (FillFields.fillFieldInfo fid ⟨false, some "/Btn", [a, b], chs⟩).checked_value
          = some b ∧
      (FillFields.fillFieldInfo fid ⟨false, some "/Btn", [a, b], chs⟩).unchecked_value
          = some "/Off") ∧
    (b = "/Off" →
      (ExtractFields._field_dict ⟨false, some "/Btn", [a, b], chs⟩ fid).map
          (fun d => (d.checked_value, d.unchecked_value)) =
        some (some a, some "/Off") ∧
      (FillFields.fillFieldInfo fid ⟨false, some "/Btn", [a, b], chs⟩).checked_value
          = some a ∧
      (FillFields.fillFieldInfo fid ⟨false, some "/Btn", [a, b], chs⟩).unchecked_value
          = some "/Off") ∧
    (a ≠ "/Off" → b ≠ "/Off" →
      (ExtractFields._field_dict ⟨false, some "/Btn", [a, b], chs⟩ fid).map
          (fun d => (d.checked_value, d.unchecked_value)) =
        some (some a, some b) ∧
      (FillFields.fillFieldInfo fid ⟨false, some "/Btn", [a, b], chs⟩).checked_value
          = some a ∧
      (FillFields.fillFieldInfo fid ⟨false, some "/Btn", [a, b], chs⟩).unchecked_value
          = some b) := by
  refine ⟨?_, ?_, ?_⟩
  · intro ha
    subst ha
    have hb : b ≠ "/Off" := fun h => hab h.symm
    have hb' : (b != "/Off") = true := by simp [hb]
    constructor
    · simp [ExtractFields._field_dict, List.find?, hb']
    · constructor <;>
        simp [FillFields.fillFieldInfo, List.find?, hb']
  · intro hbo
    subst hbo
    have ha : a ≠ "/Off" := hab
    have ha' : (a != "/Off") = true := by simp [ha]
    constructor
    · simp [ExtractFields._field_dict, List.find?, ha']
    · constructor <;>
        simp [FillFields.fillFieldInfo, List.find?, ha']
  · intro ha hb
    have ha' : (a != "/Off") = true := by simp [ha]
    constructor
    · simp [ExtractFields._field_dict, List.find?, ha', ha, hb]
    · constructor <;>
        simp [FillFields.fillFieldInfo, List.find?, ha', ha, hb]

/-- Witness for C4 at the concrete state pairs `["/Off", "/Yes"]` (one
state is the off-token, declared first) and `["/A", "/B"]` (no
off-token). -/
theorem C4_checkbox_state_assignment_witness :
    ((ExtractFields._field_dict
        ⟨false, some "/Btn", ["/Off", "/Yes"], []⟩ "F").map
        (fun d => (d.checked_value, d.unchecked_value)) =
      some (some "/Yes", some "/Off")) ∧
    ((ExtractFields._field_dict ⟨false, some "/Btn", ["/A", "/B"], []⟩ "G").map
        (fun d => (d.checked_value, d.unchecked_value)) =
      some (some "/A", some "/B")) :=
  ⟨((C4_checkbox_state_assignment "F" "/Off" "/Yes" [] (by decide)).1 rfl).1,
   (((C4_checkbox_state_assignment "G" "/A" "/B" [] (by decide)).2.2
      (by decide) (by decide))).1⟩

/-! ## C1: batch validation is all-or-nothing and reports every failure -/

/-- C1: if any entry of the batch fails validation, `main` exits with an
error before building the write plan (no value is written), and the
reported error list contains every failing entry's message(s), not only
the first. -/
theorem C1_batch_validation_all_or_nothing
    (fieldInfo : List (String × FillFields.FInfo))
    (entries : List FillFields.Entry)
    (hfail : ∃ e ∈ entries, FillFields.validateEntry fieldInfo e ≠ []) :
    FillFields.fillMain fieldInfo entries =
        Except.error (FillFields.validateAll fieldInfo entries) ∧
      ∀ e ∈ entries, ∀ m ∈ FillFields.validateEntry fieldInfo e,
        m ∈ FillFields.validateAll fieldInfo entries := by
  have hmem : ∀ e ∈ entries, ∀ m ∈ FillFields.validateEntry fieldInfo e,
      m ∈ FillFields.validateAll fieldInfo entries := by
    intro e he m hm
    exact List.mem_flatMap.mpr ⟨e, he, hm⟩
  refine ⟨?_, hmem⟩
  obtain ⟨e, he, hne⟩ := hfail
  obtain ⟨m, hm⟩ := List.exists_mem_of_ne_nil _ hne
  have hnil : FillFields.validateAll fieldInfo entries ≠ [] := by
    intro h0
    have := hmem e he m hm
    rw [h0] at this
    simp at this
  have hie : (FillFields.validateAll fieldInfo entries).isEmpty = false := by
    cases hv : FillFields.validateAll fieldInfo entries with
    | nil => exact absurd hv hnil
    | cons x xs => rfl
  simp [FillFields.fillMain, hie]

/-- Witness for C1: a concrete batch with one valid and one invalid entry
is rejected whole, with the full message list. -/
theorem C1_batch_validation_all_or_nothing_witness :
    FillFields.fillMain FillFields.fiW FillFields.entriesBad =
      Except.error
        (FillFields.validateAll FillFields.fiW FillFields.entriesBad) :=
  (C1_batch_validation_all_or_nothing FillFields.fiW FillFields.entriesBad
    (by decide)).1

/-! ## C10: page-less entries are written to page 1 -/

theorem lookup_insertPage (acc : List (Nat × List (String × String)))
    (pg pg' : Nat) (fid v : String) :
    (FillFields.insertPage acc pg' fid v).lookup pg =
      if pg = pg' then
        (match acc.lookup pg' with
         | some mp => some (dictSet mp fid v)
         | none => some [(fid, v)])
      else acc.lookup pg := by
  induction acc with
  | nil =>
    by_cases h : pg = pg'
    · subst h; simp [FillFields.insertPage, List.lookup]
    · have hb : (pg == pg') = false := by simp [h]
      simp [FillFields.insertPage, List.lookup, h, hb]
  | cons q rest ih =>
    obtain ⟨p, mp⟩ := q
    by_cases hp : p = pg'
    · subst hp
      by_cases h : pg = p
      · subst h; simp [FillFields.insertPage, List.lookup]
      · have hb : (pg == p) = false := by simp [h]
        simp [FillFields.insertPage, List.lookup, h, hb]
    · by_cases h : pg = p
      · subst h
        have h' : ¬ pg = pg' := fun hh => hp (hh.symm ▸ rfl)
        simp [FillFields.insertPage, List.lookup, hp, h']
      · have hb : (pg == p) = false := by simp [h]
        have hb' : (pg' == p) = false := by
          simp only [beq_eq_false_iff_ne, ne_eq]
          exact fun hh => hp hh.symm
        simp [FillFields.insertPage, List.lookup, hp, hb, hb', ih]

/-- The per-page membership tracked through the grouping loop. -/
theorem byPage_go (l : List FillFields.Entry) :
    ∀ (acc : List (Nat × List (String × String))) (pg : Nat) (fid : String),
      ((∃ mp, acc.lookup pg = some mp ∧ (mp.lookup fid).isSome) ∨
        (∃ e ∈ l, e.field_id = fid ∧ e.value.isSome ∧ e.page.getD 1 = pg)) →
      ∃ mp, (l.foldl FillFields.byPageStep acc).lookup pg = some mp ∧
        (mp.lookup fid).isSome := by
  have pres : ∀ acc (e : FillFields.Entry) pg fid,
      (∃ mp, acc.lookup pg = some mp ∧ (mp.lookup fid).isSome) →
      ∃ mp, (FillFields.byPageStep acc e).lookup pg = some mp ∧
        (mp.lookup fid).isSome := by
    intro acc e pg fid ⟨mp, hmp, hfid⟩
    cases hv : e.value with
    | none => exact ⟨mp, by simp [FillFields.byPageStep, hv, hmp], hfid⟩
    | some v =>
      have hstep : FillFields.byPageStep acc e =
          FillFields.insertPage acc (e.page.getD 1) e.field_id v := by
        simp [FillFields.byPageStep, hv]
      by_cases hpg : pg = e.page.getD 1
      · refine ⟨dictSet mp e.field_id v, ?_, ?_⟩
        · rw [hstep, lookup_insertPage, if_pos hpg, ← hpg, hmp]
        · rw [lookup_dictSet]
          by_cases hf : fid = e.field_id <;> simp [hf, hfid]
      · exact ⟨mp, by rw [hstep, lookup_insertPage, if_neg hpg]; exact hmp,
          hfid⟩
  induction l with
  | nil =>
    intro acc pg fid h
    rcases h with h | ⟨e, he, _⟩
    · simpa using h
    · simp at he
  | cons e rest ih =>
    intro acc pg fid h
    rcases h with h | ⟨e', he', hfid, hval, hpg⟩
    · exact ih _ pg fid (Or.inl (pres acc e pg fid h))
    · rcases List.mem_cons.mp he' with heq | hmem
      · subst heq
        refine ih _ pg fid (Or.inl ?_)
        obtain ⟨v, hv⟩ := Option.isSome_iff_exists.mp hval
        subst hfid
        subst hpg
        rcases hmp : acc.lookup (e'.page.getD 1) with _ | mp
        · exact ⟨[(e'.field_id, v)],
            by simp [FillFields.byPageStep, hv, lookup_insertPage, hmp],
            by simp [List.lookup]⟩
        · refine ⟨dictSet mp e'.field_id v,
            by simp [FillFields.byPageStep, hv, lookup_insertPage, hmp], ?_⟩
          rw [lookup_dictSet]
          simp
      · exact ih _ pg fid (Or.inr ⟨e', hmem, hfid, hval, hpg⟩)

theorem validate_value_not_pageMismatch (info : FillFields.FInfo)
    (v : String) (m : FillFields.Msg)
    (h : FillFields._validate_value info v = some m) :
    ∀ fid got expected, m ≠ FillFields.Msg.pageMismatch fid got expected := by
  unfold FillFields._validate_value at h
  split_ifs at h <;> (try simp at h) <;> (try subst h) <;> simp

/-- C10: in a batch that validates cleanly, an entry carrying a value but
no page is applied to page 1's fields; the write plan is the same for any
model the batch validates against (the model's recorded page never
locates a write), and an entry with no declared page can never produce a
page-mismatch failure, whatever the model records. -/
theorem C10_pageless_entries_write_to_page_one
    (fieldInfo : List (String × FillFields.FInfo))
    (entries : List FillFields.Entry) (e : FillFields.Entry) (v : String)
    (plan : List (Nat × List (String × String)))
    (he : e ∈ entries) (hv : e.value = some v) (hp : e.page = none)
    (hok : FillFields.fillMain fieldInfo entries = Except.ok plan) :
    (∃ mp, plan.lookup 1 = some mp ∧ (mp.lookup e.field_id).isSome) ∧
      (∀ fieldInfo', FillFields.validateAll fieldInfo' entries = [] →
        FillFields.fillMain fieldInfo' entries = Except.ok plan) ∧
      ∀ fieldInfo', ∀ m ∈ FillFields.validateEntry fieldInfo' e,
        ∀ fid got expected, m ≠ FillFields.Msg.pageMismatch fid got expected := by
  have hplan : plan = FillFields.byPage entries := by
    unfold FillFields.fillMain at hok
    by_cases hie : (FillFields.validateAll fieldInfo entries).isEmpty <;>
      simp [hie] at hok
    · exact hok.symm
  refine ⟨?_, ?_, ?_⟩
  · subst hplan
    exact byPage_go entries [] 1 e.field_id
      (Or.inr ⟨e, he, rfl, by simp [hv], by simp [hp]⟩)
  · intro fieldInfo' h0
    simp [FillFields.fillMain, h0, hplan]
  · intro fieldInfo' m hm fid got expected
    cases hl : fieldInfo'.lookup e.field_id with
    | none =>
      simp [FillFields.validateEntry, hl] at hm
      simp [hm]
    | some info =>
      simp [FillFields.validateEntry, hl, hp, FillFields.truthyPage, hv] at hm
      cases hvv : FillFields._validate_value info v with
      | none => simp [hvv] at hm
      | some m2 =>
        simp [hvv] at hm
        rw [hm]
        exact validate_value_not_pageMismatch info v m2 hvv fid got expected

/-- Witness for C10: the concrete valid page-less batch lands its value
in the page-1 group. -/
theorem C10_pageless_entries_write_to_page_one_witness :
    ∃ mp, (FillFields.byPage FillFields.entriesGood).lookup 1 = some mp ∧
      (mp.lookup "Name").isSome :=
  (C10_pageless_entries_write_to_page_one FillFields.fiW
    FillFields.entriesGood ⟨"Name", some "Bob", none⟩ "Bob"
    (FillFields.byPage FillFields.entriesGood)
    (by decide) rfl rfl (by rfl)).1

/-! ## C6: the failure cap is enforced only on overlap failures -/

theorem overlapMsgOf_isOverlap (ti : CheckBoxes.RectType) (ii : Nat)
    (fi : CheckBoxes.Field) (tj : CheckBoxes.RectType) (ij : Nat)
    (fj : CheckBoxes.Field) :
    CheckBoxes.isOverlapMsg (CheckBoxes.overlapMsgOf ti ii fi tj ij fj)
      = true := by
  unfold CheckBoxes.overlapMsgOf
  split <;> rfl

theorem overlapMsgOf_ne_tooMany (ti : CheckBoxes.RectType) (ii : Nat)
    (fi : CheckBoxes.Field) (tj : CheckBoxes.RectType) (ij : Nat)
    (fj : CheckBoxes.Field) :
    CheckBoxes.overlapMsgOf ti ii fi tj ij fj ≠ CheckBoxes.Msg.tooMany := by
  unfold CheckBoxes.overlapMsgOf
  split <;> simp

theorem heightBlock_spec (ti : CheckBoxes.RectType) (fi : CheckBoxes.Field)
    (ri : CheckBoxes.Rect) (e1 : Nat) :
    ∃ (e2 : Nat) (ms2 : List CheckBoxes.Msg),
      (if ti = CheckBoxes.RectType.entry then
         match fi.entry_text with
         | some et =>
           if ri.y1 - ri.y0 < et.font_size.getD 14 then
             (e1 + 1, [CheckBoxes.Msg.undersized fi.description])
           else (e1, [])
         | none => (e1, [])
       else (e1, [])) = (e2, ms2) ∧
      e1 ≤ e2 ∧ e2 ≤ e1 + 1 ∧
        ms2.filter CheckBoxes.isOverlapMsg = [] ∧
        CheckBoxes.Msg.tooMany ∉ ms2 := by
  by_cases hti : ti = CheckBoxes.RectType.entry
  · cases het : fi.entry_text with
    | none => exact ⟨e1, [], by simp [hti, het], by omega, by omega, rfl, by simp⟩
    | some et =>
      by_cases hlt : ri.y1 - ri.y0 < et.font_size.getD 14
      · exact ⟨e1 + 1, [CheckBoxes.Msg.undersized fi.description],
          by simp [hti, het, hlt], by omega, by omega,
          by simp [CheckBoxes.isOverlapMsg], by simp⟩
      · exact ⟨e1, [], by simp [hti, het, hlt], by omega, by omega, rfl, by simp⟩
  · exact ⟨e1, [], by simp [hti], by omega, by omega, rfl, by simp⟩

theorem innerLoop_cap (ri : CheckBoxes.Rect) (ti : CheckBoxes.RectType)
    (ii : Nat) (fi : CheckBoxes.Field) :
    ∀ (rest : List CheckBoxes.LRect) (errors e' : Nat)
      (ms : List CheckBoxes.Msg) (ab : Bool),
      CheckBoxes.innerLoop ri ti ii fi rest errors = (e', ms, ab) →
      e' = errors + (ms.filter CheckBoxes.isOverlapMsg).length ∧
        (ms.filter CheckBoxes.isOverlapMsg).length ≤ max (20 - errors) 1 ∧
        (ab = false →
          ((ms.filter CheckBoxes.isOverlapMsg).length = 0 ∨ e' ≤ 19) ∧
            CheckBoxes.Msg.tooMany ∉ ms) ∧
        (ab = true → ∃ ms0, ms = ms0 ++ [CheckBoxes.Msg.tooMany]) := by
  intro rest
  induction rest with
  | nil =>
    intro errors e' ms ab h
    simp only [CheckBoxes.innerLoop, Prod.mk.injEq] at h
    obtain ⟨he, hm, hab⟩ := h
    subst he; subst hm; subst hab
    simp
  | cons x rest ih =>
    obtain ⟨rj, tj, ij, fj⟩ := x
    intro errors e' ms ab h
    rw [CheckBoxes.innerLoop] at h
    split_ifs at h with hpp hint hcap
    · exact ih errors e' ms ab h
    · -- overlap found, cap reached: early return
      simp only [Prod.mk.injEq] at h
      obtain ⟨he, hm, hab⟩ := h
      subst he; subst hm; subst hab
      have htm : CheckBoxes.isOverlapMsg CheckBoxes.Msg.tooMany = false := rfl
      refine ⟨?_, ?_, ?_, ?_⟩
      · simp [List.filter, overlapMsgOf_isOverlap, htm]
      · simp [List.filter, overlapMsgOf_isOverlap, htm]
      · intro hc; cases hc
      · intro _
        exact ⟨[CheckBoxes.overlapMsgOf ti ii fi tj ij fj], rfl⟩
    · -- overlap found, cap not reached: recurse
      rcases hr : CheckBoxes.innerLoop ri ti ii fi rest (errors + 1)
        with ⟨e1, ms1, ab1⟩
      rw [hr] at h
      simp only [Prod.mk.injEq] at h
      obtain ⟨he, hm, hab⟩ := h
      subst he; subst hm; subst hab
      obtain ⟨hsum, hbound, hfalse, htrue⟩ := ih (errors + 1) e1 ms1 ab1 hr
      refine ⟨?_, ?_, ?_, ?_⟩
      · simp [List.filter, overlapMsgOf_isOverlap]
        omega
      · simp [List.filter, overlapMsgOf_isOverlap]
        omega
      · intro hab1
        obtain ⟨hc, hnm⟩ := hfalse hab1
        refine ⟨Or.inr ?_, ?_⟩
        · rcases hc with hc | hc <;> omega
        · simp [List.mem_cons, hnm,
            (overlapMsgOf_ne_tooMany ti ii fi tj ij fj).symm]
      · intro hab1
        obtain ⟨ms0, hms0⟩ := htrue hab1
        exact ⟨CheckBoxes.overlapMsgOf ti ii fi tj ij fj :: ms0,
          by simp [hms0]⟩
    · exact ih errors e' ms ab h

theorem outerLoop_cap :
    ∀ (l : List CheckBoxes.LRect) (errors e' : Nat)
      (ms : List CheckBoxes.Msg) (ab : Bool),
      CheckBoxes.outerLoop l errors = (e', ms, ab) →
      (ms.filter CheckBoxes.isOverlapMsg).length ≤ max (20 - errors) 1 ∧
        (ab = false → CheckBoxes.Msg.tooMany ∉ ms) ∧
        (ab = true → ∃ ms0, ms = ms0 ++ [CheckBoxes.Msg.tooMany]) := by
  intro l
  induction l with
  | nil =>
    intro errors e' ms ab h
    simp only [CheckBoxes.outerLoop, Prod.mk.injEq] at h
    obtain ⟨he, hm, hab⟩ := h
    subst he; subst hm; subst hab
    simp
  | cons x rest ih =>
    obtain ⟨ri, ti, ii, fi⟩ := x
    intro errors e' ms ab h
    rw [CheckBoxes.outerLoop] at h
    rcases hr1 : CheckBoxes.innerLoop ri ti ii fi rest errors
      with ⟨e1, ms1, ab1⟩
    rw [hr1] at h
    obtain ⟨hsum, hbound, hfalse, htrue⟩ :=
      innerLoop_cap ri ti ii fi rest errors e1 ms1 ab1 hr1
    cases ab1 with
    | true =>
      simp only [eq_self_iff_true, if_true, Prod.mk.injEq] at h
      obtain ⟨he, hm, hab⟩ := h
      subst he; subst hm; subst hab
      obtain ⟨ms0, hms0⟩ := htrue rfl
      refine ⟨hbound, ?_, fun _ => ⟨ms0, hms0⟩⟩
      intro hc; cases hc
    | false =>
      simp only [Bool.false_eq_true, if_false] at h
      obtain ⟨e2, ms2, heq, hle, hle1, hfil, hnm2⟩ :=
        heightBlock_spec ti fi ri e1
      rw [heq] at h
      rcases hr3 : CheckBoxes.outerLoop rest e2 with ⟨e3, ms3, ab3⟩
      rw [hr3] at h
      simp only [Prod.mk.injEq] at h
      obtain ⟨he, hm, hab⟩ := h
      subst he; subst hm; subst hab
      obtain ⟨hbound3, hfalse3, htrue3⟩ := ih e2 e3 ms3 ab3 hr3
      obtain ⟨hc1, hnm1⟩ := hfalse rfl
      have hfsplit :
          ((ms1 ++ ms2 ++ ms3).filter CheckBoxes.isOverlapMsg).length
            = (ms1.filter CheckBoxes.isOverlapMsg).length
              + (ms3.filter CheckBoxes.isOverlapMsg).length := by
        simp [List.filter_append, hfil]
      refine ⟨?_, ?_, ?_⟩
      · rw [hfsplit]
        omega
      · intro hab3
        have hnm3 := hfalse3 hab3
        simp [List.mem_append, hnm1, hnm2, hnm3]
      · intro hab3
        obtain ⟨ms0, hms0⟩ := htrue3 hab3
        exact ⟨ms1 ++ ms2 ++ ms0, by simp [hms0]⟩

section
attribute [local semireducible] Rat.sub

/-- C6 counterexample: on 21 single-page fields whose entry boxes are all
undersized and whose rectangles never overlap, `validate` reports 21
failures and never emits the terminal fix-and-retry notice — the
20-failure cap neither bounds the output nor stops the check here. -/
theorem C6_cex_twentyone_failures_no_stop :
    ((CheckBoxes.validate CheckBoxes.d21).filter CheckBoxes.isFailure).length
        = 21 ∧
      CheckBoxes.Msg.tooMany ∉ CheckBoxes.validate CheckBoxes.d21 := by
  decide

/-- C6 (amended): the 20-failure cap is enforced only when an overlap
failure is reported: at most 20 overlap failures ever appear, and when
the terminal fix-and-retry notice appears it is the last message of the
output (checking stopped there); undersized-entry failures are reported
without consulting the cap, so the total failure count can exceed 20. -/
theorem C6_overlap_cap_only (d : CheckBoxes.FieldsData) :
    ((CheckBoxes.validate d).filter CheckBoxes.isOverlapMsg).length ≤ 20 ∧
      (CheckBoxes.Msg.tooMany ∈ CheckBoxes.validate d →
        ∃ ms0, CheckBoxes.validate d
          = ms0 ++ [CheckBoxes.Msg.tooMany]) := by
  rcases h : CheckBoxes.outerLoop (CheckBoxes.rectsOf d.form_fields) 0
    with ⟨e', ms, ab⟩
  obtain ⟨hbound, hfalse, htrue⟩ :=
    outerLoop_cap (CheckBoxes.rectsOf d.form_fields) 0 e' ms ab h
  have hchk : CheckBoxes.isOverlapMsg
      (CheckBoxes.Msg.checking d.form_fields.length) = false := rfl
  have hsuc : CheckBoxes.isOverlapMsg CheckBoxes.Msg.success = false := rfl
  cases ab with
  | true =>
    have hv : CheckBoxes.validate d =
        CheckBoxes.Msg.checking d.form_fields.length :: ms := by
      simp [CheckBoxes.validate, h]
    rw [hv]
    obtain ⟨ms0, hms0⟩ := htrue rfl
    constructor
    · simp [List.filter, hchk]
      omega
    · intro _
      exact ⟨CheckBoxes.Msg.checking d.form_fields.length :: ms0,
        by simp [hms0]⟩
  | false =>
    have hnm := hfalse rfl
    have hv : CheckBoxes.validate d =
        CheckBoxes.Msg.checking d.form_fields.length ::
          (ms ++ if e' = 0 then [CheckBoxes.Msg.success] else []) := by
      simp [CheckBoxes.validate, h]
    rw [hv]
    constructor
    · by_cases he : e' = 0 <;>
        simp [he, List.filter, List.filter_append, hchk, hsuc] <;> omega
    · intro hmem
      exfalso
      by_cases he : e' = 0 <;>
        simp [he, List.mem_cons, List.mem_append, hnm] at hmem

/-- Witness for the amended C6: on a form whose rectangles all coincide
the terminal notice fires and closes the output. -/
theorem C6_overlap_cap_only_witness :
    ((CheckBoxes.validate CheckBoxes.d20ov).filter
        CheckBoxes.isOverlapMsg).length ≤ 20 ∧
      ∃ ms0, CheckBoxes.validate CheckBoxes.d20ov
        = ms0 ++ [CheckBoxes.Msg.tooMany] :=
  ⟨(C6_overlap_cap_only CheckBoxes.d20ov).1,
   (C6_overlap_cap_only CheckBoxes.d20ov).2 (by decide)⟩

end

/-! ## C3: output order uses the rectangle's bottom coordinate -/

theorem keyLe_trans (a b c : ℚ × ℚ × ℚ)
    (hab : ExtractFields.keyLe a b = true)
    (hbc : ExtractFields.keyLe b c = true) :
    ExtractFields.keyLe a c = true := by
  simp only [ExtractFields.keyLe, Bool.or_eq_true, Bool.and_eq_true,
    decide_eq_true_eq] at hab hbc ⊢
  rcases hab with h1 | ⟨h1, h2 | ⟨h2, h3⟩⟩ <;>
    rcases hbc with g1 | ⟨g1, g2 | ⟨g2, g3⟩⟩
  all_goals
    first
      | (left; linarith)
      | (right;
         refine ⟨by linarith, ?_⟩;
         first
           | (left; linarith)
           | (right; exact ⟨by linarith, by linarith⟩))

theorem keyLe_total (a b : ℚ × ℚ × ℚ) :
    ExtractFields.keyLe a b = true ∨ ExtractFields.keyLe b a = true := by
  simp only [ExtractFields.keyLe, Bool.or_eq_true, Bool.and_eq_true,
    decide_eq_true_eq]
  rcases lt_trichotomy a.1 b.1 with h1 | h1 | h1
  · exact Or.inl (Or.inl h1)
  · rcases lt_trichotomy a.2.1 b.2.1 with h2 | h2 | h2
    · exact Or.inl (Or.inr ⟨h1, Or.inl h2⟩)
    · rcases le_total a.2.2 b.2.2 with h3 | h3
      · exact Or.inl (Or.inr ⟨h1, Or.inr ⟨h2, h3⟩⟩)
      · exact Or.inr (Or.inr ⟨h1.symm, Or.inr ⟨h2.symm, h3⟩⟩)
    · exact Or.inr (Or.inr ⟨h1.symm, Or.inl h2⟩)
  · exact Or.inr (Or.inl h1)

/-- C3 counterexample: on `mC3` the extraction output is `[A, B]` (the
order of descending bottom coordinate `r[1]`), which is *not* sorted by
the claim's key of descending top coordinate — that order would put `B`
first. -/
theorem C3_cex_sorted_by_bottom_not_top :
    (ExtractFields.extract_field_info ExtractFields.mC3).map
        (fun p => p.1.map ExtractFields.Desc.field_id) = some ["A", "B"] ∧
      ¬ ExtractFields.sortedByClaimKey ExtractFields.outC3 := by
  constructor
  · decide
  · unfold ExtractFields.sortedByClaimKey ExtractFields.outC3
    decide

/-- C3 (amended): the extraction output is sorted by ascending page, then
descending *bottom* coordinate (`r[1]`, the rectangle's second entry),
then ascending left coordinate, where a radio group falls back to its
first recovered option's rectangle and a field with no geometry at all to
the all-zero sentinel rectangle. -/
theorem C3_output_sorted_by_code_key (m : ExtractFields.Model)
    (out : List ExtractFields.Desc) (warns : List String)
    (hex : ExtractFields.extract_field_info m = some (out, warns)) :
    ExtractFields.sortedByCodeKey out := by
  haveI htr : IsTrans ExtractFields.Desc
      (fun a b => ExtractFields.descLe a b = true) :=
    ⟨fun a b c => keyLe_trans (ExtractFields.sortKey a)
      (ExtractFields.sortKey b) (ExtractFields.sortKey c)⟩
  haveI hto : IsTotal ExtractFields.Desc
      (fun a b => ExtractFields.descLe a b = true) :=
    ⟨fun a b => keyLe_total (ExtractFields.sortKey a)
      (ExtractFields.sortKey b)⟩
  unfold ExtractFields.extract_field_info at hex
  by_cases hempty : m.fields.isEmpty
  · simp [hempty] at hex
    rw [hex.1]
    exact List.Pairwise.nil
  · simp only [hempty, Bool.false_eq_true, if_false] at hex
    rcases hb : ExtractFields.buildById m.fields ([], []) with _ | ⟨byId, possible⟩
    · rw [hb] at hex; cases hex
    · rw [hb] at hex
      simp only [Option.some.injEq, Prod.mk.injEq] at hex
      rw [← hex.1]
      exact List.sorted_insertionSort _ _

/-- Witness for the amended C3 at the concrete model `mC3`. -/
theorem C3_output_sorted_by_code_key_witness :
    ExtractFields.sortedByCodeKey ExtractFields.outC3 :=
  C3_output_sorted_by_code_key ExtractFields.mC3 ExtractFields.outC3 []
    (by decide)

/-! ## C2 and C5: extraction pass lemmas -/

theorem nodupKeys_unique {α : Type} {l : List (String × α)} {k : String}
    {a b : α} (ha : (k, a) ∈ l) (hb : (k, b) ∈ l)
    (hnd : (l.map Prod.fst).Nodup) : a = b := by
  induction l with
  | nil => simp at ha
  | cons p rest ih =>
    obtain ⟨k', v⟩ := p
    simp only [List.map_cons, List.nodup_cons] at hnd
    rcases List.mem_cons.mp ha with heq | ha'
    · injection heq with h1 h2
      subst h1; subst h2
      rcases List.mem_cons.mp hb with heq' | hb'
      · injection heq' with g1 g2
        exact g2.symm
      · exact absurd (List.mem_map_of_mem Prod.fst hb') hnd.1
    · rcases List.mem_cons.mp hb with heq' | hb'
      · injection heq' with h1 h2
        subst h1
        exact absurd (List.mem_map_of_mem Prod.fst ha') hnd.1
      · exact ih ha' hb' hnd.2

theorem field_dict_facts {f : ExtractFields.RawField} {fid : String}
    {d : ExtractFields.Desc}
    (h : ExtractFields._field_dict f fid = some d) :
    d.field_id = fid ∧ d.page = none := by
  unfold ExtractFields._field_dict at h
  repeat' split at h
  all_goals
    first
      | (cases h; exact ⟨rfl, rfl⟩)
      | cases h

theorem setAdd_mem_self (l : List String) (k : String) : k ∈ setAdd l k := by
  unfold setAdd
  split_ifs with hk
  · exact hk
  · simp

theorem mem_setAdd_of_mem {l : List String} {fid : String} (k : String)
    (h : fid ∈ l) : fid ∈ setAdd l k := by
  unfold setAdd
  split_ifs
  · exact h
  · simp [h]

theorem mem_setAdd_iff {l : List String} {fid k : String} (hne : fid ≠ k) :
    fid ∈ setAdd l k ↔ fid ∈ l := by
  unfold setAdd
  split_ifs
  · exact Iff.rfl
  · simp [hne]

theorem buildById_preserve :
    ∀ (fields : List (String × ExtractFields.RawField))
      (acc out : List (String × ExtractFields.Desc) × List String),
      ExtractFields.buildById fields acc = some out → ∀ fid : String,
      fid ∉ fields.map Prod.fst →
      out.1.lookup fid = acc.1.lookup fid ∧ (fid ∈ out.2 ↔ fid ∈ acc.2) := by
  intro fields
  induction fields with
  | nil =>
    intro acc out h fid _
    cases h
    exact ⟨rfl, Iff.rfl⟩
  | cons p rest ih =>
    obtain ⟨k, f⟩ := p
    intro acc out h fid hnmem
    simp only [List.map_cons, List.mem_cons, not_or] at hnmem
    obtain ⟨hkne, hrest⟩ := hnmem
    rw [ExtractFields.buildById] at h
    split_ifs at h with hkids hbtn
    · obtain ⟨h1, h2⟩ := ih _ out h fid hrest
      exact ⟨h1, h2.trans (mem_setAdd_iff hkne)⟩
    · exact ih _ out h fid hrest
    · rcases hd : ExtractFields._field_dict f k with _ | d
      · rw [hd] at h; cases h
      · rw [hd] at h
        obtain ⟨h1, h2⟩ := ih _ out h fid hrest
        rw [h1, lookup_dictSet, if_neg hkne]
        exact ⟨rfl, h2⟩

theorem buildById_leaf :
    ∀ (fields : List (String × ExtractFields.RawField))
      (acc out : List (String × ExtractFields.Desc) × List String),
      ExtractFields.buildById fields acc = some out →
      ∀ (fid : String) (f : ExtractFields.RawField),
      (fid, f) ∈ fields → f.hasKids = false →
      (fields.map Prod.fst).Nodup → fid ∉ acc.2 →
      ∃ d, ExtractFields._field_dict f fid = some d ∧
        out.1.lookup fid = some d ∧ fid ∉ out.2 := by
  intro fields
  induction fields with
  | nil =>
    intro acc out h fid f hmem
    simp at hmem
  | cons p rest ih =>
    obtain ⟨k, g⟩ := p
    intro acc out h fid f hmem hleaf hnd hacc
    simp only [List.map_cons, List.nodup_cons] at hnd
    rw [ExtractFields.buildById] at h
    rcases List.mem_cons.mp hmem with heq | hmem'
    · injection heq with h1 h2
      subst h1; subst h2
      rw [if_neg (by simp [hleaf])] at h
      rcases hd : ExtractFields._field_dict f fid with _ | d
      · rw [hd] at h; cases h
      · rw [hd] at h
        obtain ⟨h1, h2⟩ := buildById_preserve rest _ out h fid hnd.1
        refine ⟨d, rfl, ?_, fun hc => hacc (h2.mp hc)⟩
        rw [h1, lookup_dictSet, if_pos rfl]
    · have hfidne : fid ≠ k := by
        intro hc
        subst hc
        exact hnd.1 (List.mem_map_of_mem Prod.fst hmem')
      split_ifs at h with hkids hbtn
      · refine ih _ out h fid f hmem' hleaf hnd.2 ?_
        intro hc
        exact hacc ((mem_setAdd_iff hfidne).mp hc)
      · exact ih _ out h fid f hmem' hleaf hnd.2 hacc
      · rcases hd : ExtractFields._field_dict g k with _ | d
        · rw [hd] at h; cases h
        · rw [hd] at h
          exact ih _ out h fid f hmem' hleaf hnd.2 hacc

theorem buildById_possible_mono :
    ∀ (fields : List (String × ExtractFields.RawField))
      (acc out : List (String × ExtractFields.Desc) × List String),
      ExtractFields.buildById fields acc = some out →
      ∀ fid, fid ∈ acc.2 → fid ∈ out.2 := by
  intro fields
  induction fields with
  | nil =>
    intro acc out h fid hmem
    cases h
    exact hmem
  | cons p rest ih =>
    obtain ⟨k, f⟩ := p
    intro acc out h fid hmem
    rw [ExtractFields.buildById] at h
    split_ifs at h with hkids hbtn
    · exact ih _ out h fid (mem_setAdd_of_mem k hmem)
    · exact ih _ out h fid hmem
    · rcases hd : ExtractFields._field_dict f k with _ | d
      · rw [hd] at h; cases h
      · rw [hd] at h
        exact ih _ out h fid hmem

theorem buildById_radio_parent :
    ∀ (fields : List (String × ExtractFields.RawField))
      (acc out : List (String × ExtractFields.Desc) × List String),
      ExtractFields.buildById fields acc = some out →
      ∀ (fid : String) (f : ExtractFields.RawField),
      (fid, f) ∈ fields → f.hasKids = true → f.ft = some "/Btn" →
      fid ∈ out.2 := by
  intro fields
  induction fields with
  | nil =>
    intro acc out h fid f hmem
    simp at hmem
  | cons p rest ih =>
    obtain ⟨k, g⟩ := p
    intro acc out h fid f hmem hkid hbtn
    rw [ExtractFields.buildById] at h
    rcases List.mem_cons.mp hmem with heq | hmem'
    · injection heq with h1 h2
      subst h1; subst h2
      rw [if_pos hkid, if_pos hbtn] at h
      exact buildById_possible_mono rest _ out h fid (setAdd_mem_self _ fid)
    · split_ifs at h with hkids hbtn'
      · exact ih _ out h fid f hmem' hkid hbtn
      · exact ih _ out h fid f hmem' hkid hbtn
      · rcases hd : ExtractFields._field_dict g k with _ | d
        · rw [hd] at h; cases h
        · rw [hd] at h
          exact ih _ out h fid f hmem' hkid hbtn

theorem buildById_all_descs :
    ∀ (fields : List (String × ExtractFields.RawField))
      (acc out : List (String × ExtractFields.Desc) × List String),
      ExtractFields.buildById fields acc = some out →
      (∀ p ∈ acc.1, (p : String × ExtractFields.Desc).2.field_id = p.1 ∧
        p.2.page = none) →
      ∀ p ∈ out.1, (p : String × ExtractFields.Desc).2.field_id = p.1 ∧
        p.2.page = none := by
  intro fields
  induction fields with
  | nil =>
    intro acc out h hinv
    cases h
    exact hinv
  | cons p rest ih =>
    obtain ⟨k, f⟩ := p
    intro acc out h hinv
    rw [ExtractFields.buildById] at h
    split_ifs at h with hkids hbtn
    · exact ih _ out h hinv
    · exact ih _ out h hinv
    · rcases hd : ExtractFields._field_dict f k with _ | d
      · rw [hd] at h; cases h
      · rw [hd] at h
        refine ih _ out h ?_
        intro q hq
        rcases mem_dictSet hq with hq' | hq'
        · exact hinv q hq'
        · subst hq'
          exact field_dict_facts hd
  
theorem buildById_kid_not_in :
    ∀ (fields : List (String × ExtractFields.RawField))
      (acc out : List (String × ExtractFields.Desc) × List String),
      ExtractFields.buildById fields acc = some out →
      ∀ gid : String, acc.1.lookup gid = none →
      (∀ f', (gid, f') ∈ fields → f'.hasKids = true) →
      out.1.lookup gid = none := by
  intro fields
  induction fields with
  | nil =>
    intro acc out h gid hnone _
    cases h
    exact hnone
  | cons p rest ih =>
    obtain ⟨k, f⟩ := p
    intro acc out h gid hnone hkid
    rw [ExtractFields.buildById] at h
    split_ifs at h with hkids hbtn
    · exact ih _ out h gid hnone (fun f' hf' => hkid f' (List.mem_cons_of_mem _ hf'))
    · exact ih _ out h gid hnone (fun f' hf' => hkid f' (List.mem_cons_of_mem _ hf'))
    · rcases hd : ExtractFields._field_dict f k with _ | d
      · rw [hd] at h; cases h
      · rw [hd] at h
        have hkg : k ≠ gid := by
          intro hc
          subst hc
          exact absurd (hkid f (List.mem_cons_self _ _)) (by simp [hkids])
        refine ih _ out h gid ?_ (fun f' hf' => hkid f' (List.mem_cons_of_mem _ hf'))
        rw [lookup_dictSet, if_neg (fun hc => hkg hc.symm)]
        exact hnone

theorem stepAnn_byId_lookup (possible : List String) (pg : Nat)
    (st : List (String × ExtractFields.Desc) ×
      List (String × ExtractFields.Desc))
    (a : ExtractFields.Ann) (fid : String) (hne : a.fid ≠ some fid) :
    (ExtractFields.stepAnn possible pg st a).1.lookup fid
      = st.1.lookup fid := by
  rcases ha : a.fid with _ | fid'
  · simp [ExtractFields.stepAnn, ha]
  · have hff : fid ≠ fid' := fun hc => hne (by rw [ha, hc])
    rcases hl : st.1.lookup fid' with _ | d
    · by_cases hpos : fid' ∈ possible
      · rcases hap : a.ap with _ | sts
        · simp [ExtractFields.stepAnn, ha, hl, hpos, hap]
        · rcases hfl : sts.filter (fun v => v != "/Off") with _ | ⟨v, rest⟩
          · simp [ExtractFields.stepAnn, ha, hl, hpos, hap, hfl]
          · rcases rest with _ | ⟨w, rest2⟩
            · rcases hrl : st.2.lookup fid' with _ | dr <;>
                simp [ExtractFields.stepAnn, ha, hl, hpos, hap, hfl, hrl]
            · simp [ExtractFields.stepAnn, ha, hl, hpos, hap, hfl]
      · simp [ExtractFields.stepAnn, ha, hl, hpos]
    · simp [ExtractFields.stepAnn, ha, hl, lookup_dictSet, hff]

theorem stepAnn_byId_none (possible : List String) (pg : Nat)
    (st : List (String × ExtractFields.Desc) ×
      List (String × ExtractFields.Desc))
    (a : ExtractFields.Ann) (gid : String)
    (hnone : st.1.lookup gid = none) :
    (ExtractFields.stepAnn possible pg st a).1.lookup gid = none := by
  rcases ha : a.fid with _ | fid'
  · simp [ExtractFields.stepAnn, ha, hnone]
  · rcases hl : st.1.lookup fid' with _ | d
    · by_cases hpos : fid' ∈ possible
      · rcases hap : a.ap with _ | sts
        · simp [ExtractFields.stepAnn, ha, hl, hpos, hap, hnone]
        · rcases hfl : sts.filter (fun v => v != "/Off") with _ | ⟨v, rest⟩
          · simp [ExtractFields.stepAnn, ha, hl, hpos, hap, hfl, hnone]
          · rcases rest with _ | ⟨w, rest2⟩
            · rcases hrl : st.2.lookup fid' with _ | dr <;>
                simp [ExtractFields.stepAnn, ha, hl, hpos, hap, hfl, hrl,
                  hnone]
            · simp [ExtractFields.stepAnn, ha, hl, hpos, hap, hfl, hnone]
      · simp [ExtractFields.stepAnn, ha, hl, hpos, hnone]
    · have hff : gid ≠ fid' := by
        intro hc
        rw [hc, hl] at hnone
        cases hnone
      simp [ExtractFields.stepAnn, ha, hl, lookup_dictSet, hff, hnone]

theorem stepAnn_byId_fid_inv (possible : List String) (pg : Nat)
    (st : List (String × ExtractFields.Desc) ×
      List (String × ExtractFields.Desc))
    (a : ExtractFields.Ann)
    (hinv : ∀ p ∈ st.1, (p : String × ExtractFields.Desc).2.field_id = p.1) :
    ∀ p ∈ (ExtractFields.stepAnn possible pg st a).1,
      (p : String × ExtractFields.Desc).2.field_id = p.1 := by
  rcases ha : a.fid with _ | fid'
  · simpa [ExtractFields.stepAnn, ha] using hinv
  · rcases hl : st.1.lookup fid' with _ | d
    · by_cases hpos : fid' ∈ possible
      · rcases hap : a.ap with _ | sts
        · simpa [ExtractFields.stepAnn, ha, hl, hpos, hap] using hinv
        · rcases hfl : sts.filter (fun v => v != "/Off") with _ | ⟨v, rest⟩
          · simpa [ExtractFields.stepAnn, ha, hl, hpos, hap, hfl] using hinv
          · rcases rest with _ | ⟨w, rest2⟩
            · rcases hrl : st.2.lookup fid' with _ | dr <;>
                simpa [ExtractFields.stepAnn, ha, hl, hpos, hap, hfl, hrl]
                  using hinv
            · simpa [ExtractFields.stepAnn, ha, hl, hpos, hap, hfl] using hinv
      · simpa [ExtractFields.stepAnn, ha, hl, hpos] using hinv
    · intro p hp
      have hstep : (ExtractFields.stepAnn possible pg st a).1
          = dictSet st.1 fid'
            { d with page := some pg, rect := some a.rect } := by
        simp [ExtractFields.stepAnn, ha, hl]
      rw [hstep] at hp
      rcases mem_dictSet hp with hp' | hp'
      · exact hinv p hp'
      · subst hp'
        exact hinv (fid', d) (lookup_mem hl)

theorem stepAnn_byId_page_inv (possible : List String) (pg : Nat)
    (st : List (String × ExtractFields.Desc) ×
      List (String × ExtractFields.Desc))
    (a : ExtractFields.Ann) (fid : String) (hne : a.fid ≠ some fid)
    (hinv : ∀ p ∈ st.1, (p : String × ExtractFields.Desc).1 = fid →
      p.2.page = none) :
    ∀ p ∈ (ExtractFields.stepAnn possible pg st a).1,
      (p : String × ExtractFields.Desc).1 = fid → p.2.page = none := by
  rcases ha : a.fid with _ | fid'
  · simpa [ExtractFields.stepAnn, ha] using hinv
  · have hff : fid' ≠ fid := fun hc => hne (by rw [ha, hc])
    rcases hl : st.1.lookup fid' with _ | d
    · by_cases hpos : fid' ∈ possible
      · rcases hap : a.ap with _ | sts
        · simpa [ExtractFields.stepAnn, ha, hl, hpos, hap] using hinv
        · rcases hfl : sts.filter (fun v => v != "/Off") with _ | ⟨v, rest⟩
          · simpa [ExtractFields.stepAnn, ha, hl, hpos, hap, hfl] using hinv
          · rcases rest with _ | ⟨w, rest2⟩
            · rcases hrl : st.2.lookup fid' with _ | dr <;>
                simpa [ExtractFields.stepAnn, ha, hl, hpos, hap, hfl, hrl]
                  using hinv
            · simpa [ExtractFields.stepAnn, ha, hl, hpos, hap, hfl] using hinv
      · simpa [ExtractFields.stepAnn, ha, hl, hpos] using hinv
    · intro p hp
      have hstep : (ExtractFields.stepAnn possible pg st a).1
          = dictSet st.1 fid'
            { d with page := some pg, rect := some a.rect } := by
        simp [ExtractFields.stepAnn, ha, hl]
      rw [hstep] at hp
      rcases mem_dictSet hp with hp' | hp'
      · exact hinv p hp'
      · subst hp'
        intro hc
        exact absurd hc hff

theorem stepAnn_radios_lookup (possible : List String) (pg : Nat)
    (st : List (String × ExtractFields.Desc) ×
      List (String × ExtractFields.Desc))
    (a : ExtractFields.Ann) (gid : String) (hne : a.fid ≠ some gid) :
    (ExtractFields.stepAnn possible pg st a).2.lookup gid
      = st.2.lookup gid := by
  rcases ha : a.fid with _ | fid'
  · simp [ExtractFields.stepAnn, ha]
  · have hff : gid ≠ fid' := fun hc => hne (by rw [ha, hc])
    rcases hl : st.1.lookup fid' with _ | d
    · by_cases hpos : fid' ∈ possible
      · rcases hap : a.ap with _ | sts
        · simp [ExtractFields.stepAnn, ha, hl, hpos, hap]
        · rcases hfl : sts.filter (fun v => v != "/Off") with _ | ⟨v, rest⟩
          · simp [ExtractFields.stepAnn, ha, hl, hpos, hap, hfl]
          · rcases rest with _ | ⟨w, rest2⟩
            · rcases hrl : st.2.lookup fid' with _ | dr <;>
                simp [ExtractFields.stepAnn, ha, hl, hpos, hap, hfl, hrl,
                  lookup_dictSet, hff]
            · simp [ExtractFields.stepAnn, ha, hl, hpos, hap, hfl]
      · simp [ExtractFields.stepAnn, ha, hl, hpos]
    · simp [ExtractFields.stepAnn, ha, hl]

theorem stepAnn_radios_fid_inv (possible : List String) (pg : Nat)
    (st : List (String × ExtractFields.Desc) ×
      List (String × ExtractFields.Desc))
    (a : ExtractFields.Ann)
    (hinv : ∀ p ∈ st.2, (p : String × ExtractFields.Desc).2.field_id = p.1) :
    ∀ p ∈ (ExtractFields.stepAnn possible pg st a).2,
      (p : String × ExtractFields.Desc).2.field_id = p.1 := by
  rcases ha : a.fid with _ | fid'
  · simpa [ExtractFields.stepAnn, ha] using hinv
  · rcases hl : st.1.lookup fid' with _ | d
    · by_cases hpos : fid' ∈ possible
      · rcases hap : a.ap with _ | sts
        · simpa [ExtractFields.stepAnn, ha, hl, hpos, hap] using hinv
        · rcases hfl : sts.filter (fun v => v != "/Off") with _ | ⟨v, rest⟩
          · simpa [ExtractFields.stepAnn, ha, hl, hpos, hap, hfl] using hinv
          · rcases rest with _ | ⟨w, rest2⟩
            · rcases hrl : st.2.lookup fid' with _ | dr
              · intro p hp
                have hstep : (ExtractFields.stepAnn possible pg st a).2
                    = dictSet st.2 fid'
                      { field_id := fid', type := "radio_group",
                        page := some pg,
                        radio_options := some [(v, a.rect)] } := by
                  simp [ExtractFields.stepAnn, ha, hl, hpos, hap, hfl, hrl]
                rw [hstep] at hp
                rcases mem_dictSet hp with hp' | hp'
                · exact hinv p hp'
                · subst hp'
                  rfl
              · intro p hp
                have hstep : (ExtractFields.stepAnn possible pg st a).2
                    = dictSet st.2 fid'
                      { dr with
                          radio_options :=
                            some ((dr.radio_options.getD [])
                              ++ [(v, a.rect)]) } := by
                  simp [ExtractFields.stepAnn, ha, hl, hpos, hap, hfl, hrl]
                rw [hstep] at hp
                rcases mem_dictSet hp with hp' | hp'
                · exact hinv p hp'
                · subst hp'
                  exact hinv (fid', dr) (lookup_mem hrl)
            · simpa [ExtractFields.stepAnn, ha, hl, hpos, hap, hfl] using hinv
      · simpa [ExtractFields.stepAnn, ha, hl, hpos] using hinv
    · simpa [ExtractFields.stepAnn, ha, hl] using hinv

theorem contribsOfAnns_cons (a : ExtractFields.Ann)
    (anns : List ExtractFields.Ann) (gid : String) :
    ExtractFields.contribsOfAnns (a :: anns) gid
      = ExtractFields.contribsOfAnns [a] gid
        ++ ExtractFields.contribsOfAnns anns gid := by
  by_cases h : (a.fid == some gid) = true
  · rcases hc : ExtractFields.radioContribution a with _ | o <;>
      simp [ExtractFields.contribsOfAnns, List.filter_cons, h, hc]
  · simp [ExtractFields.contribsOfAnns, List.filter_cons, h]

theorem stepAnn_radioInv (possible : List String) (pg : Nat)
    (st : List (String × ExtractFields.Desc) ×
      List (String × ExtractFields.Desc))
    (a : ExtractFields.Ann) (gid : String) (hpos : gid ∈ possible)
    (hnone : st.1.lookup gid = none) (cs : List (String × List ℚ))
    (hinv : ExtractFields.RadioInv st.2 gid cs) :
    ExtractFields.RadioInv (ExtractFields.stepAnn possible pg st a).2 gid
      (cs ++ ExtractFields.contribsOfAnns [a] gid) := by
  rcases ha : a.fid with _ | fid'
  · have hc : ExtractFields.contribsOfAnns [a] gid = [] := by
      simp [ExtractFields.contribsOfAnns, List.filter, ha]
    rw [hc, List.append_nil]
    have hstep : (ExtractFields.stepAnn possible pg st a).2 = st.2 := by
      simp [ExtractFields.stepAnn, ha]
    rw [hstep]
    exact hinv
  · by_cases hg : fid' = gid
    · subst fid'
      rcases hap : a.ap with _ | sts
      · have hc : ExtractFields.contribsOfAnns [a] gid = [] := by
          simp [ExtractFields.contribsOfAnns, List.filter, ha,
            ExtractFields.radioContribution, hap]
        rw [hc, List.append_nil]
        have hstep : (ExtractFields.stepAnn possible pg st a).2 = st.2 := by
          simp [ExtractFields.stepAnn, ha, hnone, hpos, hap]
        rw [hstep]
        exact hinv
      · rcases hfl : sts.filter (fun v => v != "/Off") with _ | ⟨v, rest⟩
        · have hc : ExtractFields.contribsOfAnns [a] gid = [] := by
            simp [ExtractFields.contribsOfAnns, List.filter, ha,
              ExtractFields.radioContribution, hap, hfl]
          rw [hc, List.append_nil]
          have hstep : (ExtractFields.stepAnn possible pg st a).2 = st.2 := by
            simp [ExtractFields.stepAnn, ha, hnone, hpos, hap, hfl]
          rw [hstep]
          exact hinv
        · rcases rest with _ | ⟨w, rest2⟩
          · have hc : ExtractFields.contribsOfAnns [a] gid
                = [(v, a.rect)] := by
              simp [ExtractFields.contribsOfAnns, List.filter, ha,
                ExtractFields.radioContribution, hap, hfl]
            rw [hc]
            rcases hrl : st.2.lookup gid with _ | dr
            · have hcs : cs = [] := by
                simpa [ExtractFields.RadioInv, hrl] using hinv
              subst hcs
              have hstep : (ExtractFields.stepAnn possible pg st a).2
                  = dictSet st.2 gid
                    { field_id := gid, type := "radio_group",
                      page := some pg,
                      radio_options := some [(v, a.rect)] } := by
                simp [ExtractFields.stepAnn, ha, hnone, hpos, hap, hfl, hrl]
              rw [hstep]
              simp only [ExtractFields.RadioInv, lookup_dictSet, if_pos rfl]
              exact ⟨rfl, rfl, by simp, by simp⟩
            · have hinv' : dr.field_id = gid ∧ dr.type = "radio_group" ∧
                  dr.radio_options = some cs ∧ cs ≠ [] := by
                simpa [ExtractFields.RadioInv, hrl] using hinv
              obtain ⟨hf, ht, hro, hcne⟩ := hinv'
              have hstep : (ExtractFields.stepAnn possible pg st a).2
                  = dictSet st.2 gid
                    { dr with
                        radio_options :=
                          some ((dr.radio_options.getD [])
                            ++ [(v, a.rect)]) } := by
                simp [ExtractFields.stepAnn, ha, hnone, hpos, hap, hfl, hrl]
              rw [hstep]
              simp only [ExtractFields.RadioInv, lookup_dictSet, if_pos rfl]
              refine ⟨hf, ht, ?_, by simp⟩
              rw [hro]
              simp
          · have hc : ExtractFields.contribsOfAnns [a] gid = [] := by
              simp [ExtractFields.contribsOfAnns, List.filter, ha,
                ExtractFields.radioContribution, hap, hfl]
            rw [hc, List.append_nil]
            have hstep : (ExtractFields.stepAnn possible pg st a).2
                = st.2 := by
              simp [ExtractFields.stepAnn, ha, hnone, hpos, hap, hfl]
            rw [hstep]
            exact hinv
    · have hbe : (fid' == gid) = false := by simp [hg]
      have hc : ExtractFields.contribsOfAnns [a] gid = [] := by
        simp [ExtractFields.contribsOfAnns, List.filter, ha, hbe]
      rw [hc, List.append_nil]
      have hrl := stepAnn_radios_lookup possible pg st a gid
        (by
          rw [ha]
          intro hcon
          injection hcon with hcc
          exact hg hcc)
      unfold ExtractFields.RadioInv at hinv ⊢
      rw [hrl]
      exact hinv

theorem contribsOfAnns_append (l1 l2 : List ExtractFields.Ann)
    (gid : String) :
    ExtractFields.contribsOfAnns (l1 ++ l2) gid
      = ExtractFields.contribsOfAnns l1 gid
        ++ ExtractFields.contribsOfAnns l2 gid := by
  simp [ExtractFields.contribsOfAnns, List.filter_append,
    List.filterMap_append]

theorem annsPass_byId_lookup (possible : List String) (pg : Nat) :
    ∀ (anns : List ExtractFields.Ann)
      (st : List (String × ExtractFields.Desc) ×
        List (String × ExtractFields.Desc)) (fid : String),
      (∀ a ∈ anns, a.fid ≠ some fid) →
      (ExtractFields.annsPass possible pg anns st).1.lookup fid
        = st.1.lookup fid := by
  intro anns
  induction anns with
  | nil => intro st fid _; rfl
  | cons a rest ih =>
    intro st fid hne
    rw [ExtractFields.annsPass]
    rw [ih _ fid (fun b hb => hne b (List.mem_cons_of_mem _ hb))]
    exact stepAnn_byId_lookup possible pg st a fid
      (hne a (List.mem_cons_self _ _))

theorem annsPass_byId_none (possible : List String) (pg : Nat) :
    ∀ (anns : List ExtractFields.Ann)
      (st : List (String × ExtractFields.Desc) ×
        List (String × ExtractFields.Desc)) (gid : String),
      st.1.lookup gid = none →
      (ExtractFields.annsPass possible pg anns st).1.lookup gid = none := by
  intro anns
  induction anns with
  | nil => intro st gid h; exact h
  | cons a rest ih =>
    intro st gid h
    rw [ExtractFields.annsPass]
    exact ih _ gid (stepAnn_byId_none possible pg st a gid h)

theorem annsPass_byId_fid_inv (possible : List String) (pg : Nat) :
    ∀ (anns : List ExtractFields.Ann)
      (st : List (String × ExtractFields.Desc) ×
        List (String × ExtractFields.Desc)),
      (∀ p ∈ st.1, (p : String × ExtractFields.Desc).2.field_id = p.1) →
      ∀ p ∈ (ExtractFields.annsPass possible pg anns st).1,
        (p : String × ExtractFields.Desc).2.field_id = p.1 := by
  intro anns
  induction anns with
  | nil => intro st h; exact h
  | cons a rest ih =>
    intro st h
    rw [ExtractFields.annsPass]
    exact ih _ (stepAnn_byId_fid_inv possible pg st a h)

theorem annsPass_byId_page_inv (possible : List String) (pg : Nat) :
    ∀ (anns : List ExtractFields.Ann)
      (st : List (String × ExtractFields.Desc) ×
        List (String × ExtractFields.Desc)) (fid : String),
      (∀ a ∈ anns, a.fid ≠ some fid) →
      (∀ p ∈ st.1, (p : String × ExtractFields.Desc).1 = fid →
        p.2.page = none) →
      ∀ p ∈ (ExtractFields.annsPass possible pg anns st).1,
        (p : String × ExtractFields.Desc).1 = fid → p.2.page = none := by
  intro anns
  induction anns with
  | nil => intro st fid _ h; exact h
  | cons a rest ih =>
    intro st fid hne h
    rw [ExtractFields.annsPass]
    exact ih _ fid (fun b hb => hne b (List.mem_cons_of_mem _ hb))
      (stepAnn_byId_page_inv possible pg st a fid
        (hne a (List.mem_cons_self _ _)) h)

theorem annsPass_radios_lookup (possible : List String) (pg : Nat) :
    ∀ (anns : List ExtractFields.Ann)
      (st : List (String × ExtractFields.Desc) ×
        List (String × ExtractFields.Desc)) (gid : String),
      (∀ a ∈ anns, a.fid ≠ some gid) →
      (ExtractFields.annsPass possible pg anns st).2.lookup gid
        = st.2.lookup gid := by
  intro anns
  induction anns with
  | nil => intro st gid _; rfl
  | cons a rest ih =>
    intro st gid hne
    rw [ExtractFields.annsPass]
    rw [ih _ gid (fun b hb => hne b (List.mem_cons_of_mem _ hb))]
    exact stepAnn_radios_lookup possible pg st a gid
      (hne a (List.mem_cons_self _ _))

theorem annsPass_radios_fid_inv (possible : List String) (pg : Nat) :
    ∀ (anns : List ExtractFields.Ann)
      (st : List (String × ExtractFields.Desc) ×
        List (String × ExtractFields.Desc)),
      (∀ p ∈ st.2, (p : String × ExtractFields.Desc).2.field_id = p.1) →
      ∀ p ∈ (ExtractFields.annsPass possible pg anns st).2,
        (p : String × ExtractFields.Desc).2.field_id = p.1 := by
  intro anns
  induction anns with
  | nil => intro st h; exact h
  | cons a rest ih =>
    intro st h
    rw [ExtractFields.annsPass]
    exact ih _ (stepAnn_radios_fid_inv possible pg st a h)

theorem annsPass_radioInv (possible : List String) (pg : Nat) :
    ∀ (anns : List ExtractFields.Ann)
      (st : List (String × ExtractFields.Desc) ×
        List (String × ExtractFields.Desc))
      (gid : String) (cs : List (String × List ℚ)),
      gid ∈ possible → st.1.lookup gid = none →
      ExtractFields.RadioInv st.2 gid cs →
      ExtractFields.RadioInv
        (ExtractFields.annsPass possible pg anns st).2 gid
        (cs ++ ExtractFields.contribsOfAnns anns gid) := by
  intro anns
  induction anns with
  | nil =>
    intro st gid cs _ _ hinv
    simpa [ExtractFields.contribsOfAnns] using hinv
  | cons a rest ih =>
    intro st gid cs hpos hnone hinv
    rw [ExtractFields.annsPass]
    have h1 := stepAnn_radioInv possible pg st a gid hpos hnone cs hinv
    have h2 := ih (ExtractFields.stepAnn possible pg st a) gid
      (cs ++ ExtractFields.contribsOfAnns [a] gid) hpos
      (stepAnn_byId_none possible pg st a gid hnone) h1
    rw [contribsOfAnns_cons, ← List.append_assoc]
    exact h2

theorem pagesPass_byId_lookup (possible : List String) :
    ∀ (ps : List (Nat × ExtractFields.Page))
      (st : List (String × ExtractFields.Desc) ×
        List (String × ExtractFields.Desc)) (fid : String),
      (∀ p ∈ ps, ∀ a ∈ (p : Nat × ExtractFields.Page).2.annots,
        a.fid ≠ some fid) →
      (ExtractFields.pagesPass possible ps st).1.lookup fid
        = st.1.lookup fid := by
  intro ps
  induction ps with
  | nil => intro st fid _; rfl
  | cons p rest ih =>
    obtain ⟨idx, page⟩ := p
    intro st fid hne
    rw [ExtractFields.pagesPass]
    rw [ih _ fid (fun q hq => hne q (List.mem_cons_of_mem _ hq))]
    exact annsPass_byId_lookup possible (idx + 1) page.annots st fid
      (hne (idx, page) (List.mem_cons_self _ _))

theorem pagesPass_byId_none (possible : List String) :
    ∀ (ps : List (Nat × ExtractFields.Page))
      (st : List (String × ExtractFields.Desc) ×
        List (String × ExtractFields.Desc)) (gid : String),
      st.1.lookup gid = none →
      (ExtractFields.pagesPass possible ps st).1.lookup gid = none := by
  intro ps
  induction ps with
  | nil => intro st gid h; exact h
  | cons p rest ih =>
    obtain ⟨idx, page⟩ := p
    intro st gid h
    rw [ExtractFields.pagesPass]
    exact ih _ gid (annsPass_byId_none possible (idx + 1) page.annots st gid h)

theorem pagesPass_byId_fid_inv (possible : List String) :
    ∀ (ps : List (Nat × ExtractFields.Page))
      (st : List (String × ExtractFields.Desc) ×
        List (String × ExtractFields.Desc)),
      (∀ p ∈ st.1, (p : String × ExtractFields.Desc).2.field_id = p.1) →
      ∀ p ∈ (ExtractFields.pagesPass possible ps st).1,
        (p : String × ExtractFields.Desc).2.field_id = p.1 := by
  intro ps
  induction ps with
  | nil => intro st h; exact h
  | cons p rest ih =>
    obtain ⟨idx, page⟩ := p
    intro st h
    rw [ExtractFields.pagesPass]
    exact ih _ (annsPass_byId_fid_inv possible (idx + 1) page.annots st h)

theorem pagesPass_byId_page_inv (possible : List String) :
    ∀ (ps : List (Nat × ExtractFields.Page))
      (st : List (String × ExtractFields.Desc) ×
        List (String × ExtractFields.Desc)) (fid : String),
      (∀ p ∈ ps, ∀ a ∈ (p : Nat × ExtractFields.Page).2.annots,
        a.fid ≠ some fid) →
      (∀ p ∈ st.1, (p : String × ExtractFields.Desc).1 = fid →
        p.2.page = none) →
      ∀ p ∈ (ExtractFields.pagesPass possible ps st).1,
        (p : String × ExtractFields.Desc).1 = fid → p.2.page = none := by
  intro ps
  induction ps with
  | nil => intro st fid _ h; exact h
  | cons p rest ih =>
    obtain ⟨idx, page⟩ := p
    intro st fid hne h
    rw [ExtractFields.pagesPass]
    exact ih _ fid (fun q hq => hne q (List.mem_cons_of_mem _ hq))
      (annsPass_byId_page_inv possible (idx + 1) page.annots st fid
        (hne (idx, page) (List.mem_cons_self _ _)) h)

theorem pagesPass_radios_lookup (possible : List String) :
    ∀ (ps : List (Nat × ExtractFields.Page))
      (st : List (String × ExtractFields.Desc) ×
        List (String × ExtractFields.Desc)) (gid : String),
      (∀ p ∈ ps, ∀ a ∈ (p : Nat × ExtractFields.Page).2.annots,
        a.fid ≠ some gid) →
      (ExtractFields.pagesPass possible ps st).2.lookup gid
        = st.2.lookup gid := by
  intro ps
  induction ps with
  | nil => intro st gid _; rfl
  | cons p rest ih =>
    obtain ⟨idx, page⟩ := p
    intro st gid hne
    rw [ExtractFields.pagesPass]
    rw [ih _ gid (fun q hq => hne q (List.mem_cons_of_mem _ hq))]
    exact annsPass_radios_lookup possible (idx + 1) page.annots st gid
      (hne (idx, page) (List.mem_cons_self _ _))

theorem pagesPass_radios_fid_inv (possible : List String) :
    ∀ (ps : List (Nat × ExtractFields.Page))
      (st : List (String × ExtractFields.Desc) ×
        List (String × ExtractFields.Desc)),
      (∀ p ∈ st.2, (p : String × ExtractFields.Desc).2.field_id = p.1) →
      ∀ p ∈ (ExtractFields.pagesPass possible ps st).2,
        (p : String × ExtractFields.Desc).2.field_id = p.1 := by
  intro ps
  induction ps with
  | nil => intro st h; exact h
  | cons p rest ih =>
    obtain ⟨idx, page⟩ := p
    intro st h
    rw [ExtractFields.pagesPass]
    exact ih _ (annsPass_radios_fid_inv possible (idx + 1) page.annots st h)

theorem pagesPass_radioInv (possible : List String) :
    ∀ (ps : List (Nat × ExtractFields.Page))
      (st : List (String × ExtractFields.Desc) ×
        List (String × ExtractFields.Desc))
      (gid : String) (cs : List (String × List ℚ)),
      gid ∈ possible → st.1.lookup gid = none →
      ExtractFields.RadioInv st.2 gid cs →
      ExtractFields.RadioInv (ExtractFields.pagesPass possible ps st).2 gid
        (cs ++ ExtractFields.contribsOfAnns
          (ps.flatMap (fun p => (p : Nat × ExtractFields.Page).2.annots))
          gid) := by
  intro ps
  induction ps with
  | nil =>
    intro st gid cs _ _ hinv
    simpa [ExtractFields.contribsOfAnns] using hinv
  | cons p rest ih =>
    obtain ⟨idx, page⟩ := p
    intro st gid cs hpos hnone hinv
    rw [ExtractFields.pagesPass]
    have h1 := annsPass_radioInv possible (idx + 1) page.annots st gid cs
      hpos hnone hinv
    have h2 := ih (ExtractFields.annsPass possible (idx + 1) page.annots st)
      gid (cs ++ ExtractFields.contribsOfAnns page.annots gid) hpos
      (annsPass_byId_none possible (idx + 1) page.annots st gid hnone) h1
    rw [List.flatMap_cons, contribsOfAnns_append, ← List.append_assoc]
    exact h2

theorem enum_mem_snd {α : Type} {l : List α} {p : Nat × α}
    (h : p ∈ l.enum) : p.2 ∈ l := by
  have := List.mem_map_of_mem Prod.snd h
  rwa [List.enum_map_snd] at this

theorem enum_flatMap_annots (pages : List ExtractFields.Page) :
    pages.enum.flatMap (fun p => (p : Nat × ExtractFields.Page).2.annots)
      = pages.flatMap ExtractFields.Page.annots := by
  conv_rhs => rw [← List.enum_map_snd pages]
  rw [List.flatMap_map]

/-- C2 counterexample: the leaf text field `A` of `mC2` resolves to no
annotation; extraction *omits* it from the output (returning the empty
field list) and prints a warning naming it — it is not retained without
geometry. -/
theorem C2_cex_unlocated_field_dropped :
    ExtractFields.extract_field_info ExtractFields.mC2
      = some ([], ["A"]) := by
  decide

/-- C2 (amended): a leaf field whose identifier matches no annotation on
any page is omitted from the field-extraction output entirely, and a
diagnostic warning naming it is emitted for the caller; the field is not
retained in the output sequence. -/
theorem C2_unlocated_field_omitted_with_warning
    (m : ExtractFields.Model) (fid : String) (f : ExtractFields.RawField)
    (out : List ExtractFields.Desc) (warns : List String)
    (hnd : (m.fields.map Prod.fst).Nodup)
    (hmem : (fid, f) ∈ m.fields) (hleaf : f.hasKids = false)
    (hnoann : ∀ pg ∈ m.pages, ∀ a ∈ (pg : ExtractFields.Page).annots,
      a.fid ≠ some fid)
    (hex : ExtractFields.extract_field_info m = some (out, warns)) :
    (∀ d ∈ out, (d : ExtractFields.Desc).field_id ≠ fid) ∧ fid ∈ warns := by
  unfold ExtractFields.extract_field_info at hex
  have hne : m.fields.isEmpty = false := by
    cases hf : m.fields with
    | nil => rw [hf] at hmem; simp at hmem
    | cons q l => rfl
  rw [hne] at hex
  simp only [Bool.false_eq_true, if_false] at hex
  rcases hb : ExtractFields.buildById m.fields ([], [])
    with _ | ⟨byId, possible⟩
  · rw [hb] at hex; cases hex
  · rw [hb] at hex
    simp only [Option.some.injEq, Prod.mk.injEq] at hex
    obtain ⟨hout, hwarns⟩ := hex
    obtain ⟨d0, hd0, hlook, hposs⟩ := buildById_leaf m.fields ([], [])
      (byId, possible) hb fid f hmem hleaf hnd (by simp)
    obtain ⟨hdfid, hdpage⟩ := field_dict_facts hd0
    have hnoann' : ∀ p ∈ m.pages.enum,
        ∀ a ∈ (p : Nat × ExtractFields.Page).2.annots, a.fid ≠ some fid :=
      fun p hp a ha2 => hnoann p.2 (enum_mem_snd hp) a ha2
    have hlook2 : (ExtractFields.annotPass byId possible m.pages).1.lookup fid
        = some d0 := by
      unfold ExtractFields.annotPass
      rw [pagesPass_byId_lookup possible m.pages.enum (byId, []) fid hnoann']
      exact hlook
    have hmem2 : (fid, d0) ∈ (ExtractFields.annotPass byId possible m.pages).1 :=
      lookup_mem hlook2
    have hfidinv : ∀ p ∈ (ExtractFields.annotPass byId possible m.pages).1,
        (p : String × ExtractFields.Desc).2.field_id = p.1 := by
      unfold ExtractFields.annotPass
      refine pagesPass_byId_fid_inv possible m.pages.enum (byId, []) ?_
      intro p hp
      exact (buildById_all_descs m.fields ([], []) (byId, possible) hb
        (by simp) p hp).1
    have hpageinv : ∀ p ∈ (ExtractFields.annotPass byId possible m.pages).1,
        (p : String × ExtractFields.Desc).1 = fid → p.2.page = none := by
      unfold ExtractFields.annotPass
      refine pagesPass_byId_page_inv possible m.pages.enum (byId, []) fid
        hnoann' ?_
      intro p hp _
      exact (buildById_all_descs m.fields ([], []) (byId, possible) hb
        (by simp) p hp).2
    have hradfid : ∀ p ∈ (ExtractFields.annotPass byId possible m.pages).2,
        (p : String × ExtractFields.Desc).2.field_id = p.1 := by
      unfold ExtractFields.annotPass
      exact pagesPass_radios_fid_inv possible m.pages.enum (byId, [])
        (by simp)
    have hradnone : (ExtractFields.annotPass byId possible m.pages).2.lookup fid
        = none := by
      unfold ExtractFields.annotPass
      rw [pagesPass_radios_lookup possible m.pages.enum (byId, []) fid
        hnoann']
      rfl
    constructor
    · intro d hd hdf
      rw [← hout] at hd
      have hd' := (List.perm_insertionSort _ _).mem_iff.mp hd
      rcases List.mem_append.mp hd' with hdl | hdr
      · obtain ⟨hdm, hdp⟩ := List.mem_filter.mp hdl
        obtain ⟨p, hpmem, hpd⟩ := List.mem_map.mp hdm
        have hk : d.field_id = p.1 := by
          rw [← hpd]
          exact hfidinv p hpmem
        have : p.2.page = none := by
          apply hpageinv p hpmem
          rw [← hk, hdf]
        rw [hpd] at this
        rw [this] at hdp
        simp at hdp
      · obtain ⟨p, hpmem, hpd⟩ := List.mem_map.mp hdr
        have hk : d.field_id = p.1 := by
          rw [← hpd]
          exact hradfid p hpmem
        have hpk : p.1 = fid := by rw [← hk, hdf]
        have : (p.1, p.2) ∉ (ExtractFields.annotPass byId possible m.pages).2 :=
          hpk ▸ not_mem_of_lookup_eq_none hradnone p.2
        exact this hpmem
    · rw [← hwarns]
      refine List.mem_map.mpr ⟨d0, ?_, hdfid⟩
      refine List.mem_filter.mpr ⟨?_, by simp [hdpage]⟩
      exact List.mem_map.mpr ⟨(fid, d0), hmem2, rfl⟩

/-- Witness for the amended C2: in `mC2W` the located field `B` survives
extraction while the unlocated `A` is dropped and warned about. -/
theorem C2_unlocated_field_omitted_with_warning_witness :
    (∀ d ∈ ExtractFields.outC2W,
      (d : ExtractFields.Desc).field_id ≠ "A") ∧ "A" ∈ ["A"] :=
  C2_unlocated_field_omitted_with_warning ExtractFields.mC2W "A"
    ⟨false, some "/Tx", [], []⟩ ExtractFields.outC2W ["A"]
    (by decide) (by decide) rfl (by decide) (by decide)

/-- C5: for a kid-bearing `/Btn` parent `gid`, each page annotation
resolving to `gid` contributes exactly one `(value, rect)` option — its
single non-off appearance-state token — when and only when its
appearance-state set has exactly one non-off token (`radioContribution`);
the emitted radio-group descriptor carries exactly the contribution list
in page-then-annotation order, and when nothing contributes no
descriptor for `gid` is emitted at all. -/
theorem C5_radio_group_inference (m : ExtractFields.Model) (gid : String)
    (gf : ExtractFields.RawField) (out : List ExtractFields.Desc)
    (warns : List String)
    (hnd : (m.fields.map Prod.fst).Nodup)
    (hmem : (gid, gf) ∈ m.fields) (hkid : gf.hasKids = true)
    (hbtn : gf.ft = some "/Btn")
    (hex : ExtractFields.extract_field_info m = some (out, warns)) :
    (ExtractFields.radioContribs m gid ≠ [] →
      ∃ d ∈ out, (d : ExtractFields.Desc).field_id = gid ∧
        d.type = "radio_group" ∧
        d.radio_options = some (ExtractFields.radioContribs m gid)) ∧
    (ExtractFields.radioContribs m gid = [] →
      ∀ d ∈ out, (d : ExtractFields.Desc).field_id ≠ gid) := by
  unfold ExtractFields.extract_field_info at hex
  have hne : m.fields.isEmpty = false := by
    cases hf : m.fields with
    | nil => rw [hf] at hmem; simp at hmem
    | cons q l => rfl
  rw [hne] at hex
  simp only [Bool.false_eq_true, if_false] at hex
  rcases hb : ExtractFields.buildById m.fields ([], [])
    with _ | ⟨byId, possible⟩
  · rw [hb] at hex; cases hex
  · rw [hb] at hex
    simp only [Option.some.injEq, Prod.mk.injEq] at hex
    obtain ⟨hout, hwarns⟩ := hex
    have hposs : gid ∈ possible :=
      buildById_radio_parent m.fields ([], []) (byId, possible) hb gid gf
        hmem hkid hbtn
    have hnotin : byId.lookup gid = none := by
      refine buildById_kid_not_in m.fields ([], []) (byId, possible) hb gid
        rfl ?_
      intro f' hf'
      rw [nodupKeys_unique hf' hmem hnd]
      exact hkid
    have hRI := pagesPass_radioInv possible m.pages.enum (byId, []) gid []
      hposs hnotin (by simp [ExtractFields.RadioInv, List.lookup])
    have hcr : ExtractFields.contribsOfAnns
        (m.pages.enum.flatMap
          (fun p => (p : Nat × ExtractFields.Page).2.annots)) gid
        = ExtractFields.radioContribs m gid := by
      rw [enum_flatMap_annots]
      rfl
    rw [List.nil_append, hcr] at hRI
    have hnotin2 : (ExtractFields.pagesPass possible m.pages.enum
        (byId, [])).1.lookup gid = none :=
      pagesPass_byId_none possible m.pages.enum (byId, []) gid hnotin
    have hfidinv : ∀ p ∈ (ExtractFields.pagesPass possible m.pages.enum
        (byId, [])).1, (p : String × ExtractFields.Desc).2.field_id = p.1 := by
      refine pagesPass_byId_fid_inv possible m.pages.enum (byId, []) ?_
      intro p hp
      exact (buildById_all_descs m.fields ([], []) (byId, possible) hb
        (by simp) p hp).1
    have hradfid : ∀ p ∈ (ExtractFields.pagesPass possible m.pages.enum
        (byId, [])).2, (p : String × ExtractFields.Desc).2.field_id = p.1 :=
      pagesPass_radios_fid_inv possible m.pages.enum (byId, []) (by simp)
    constructor
    · intro hnz
      rcases hrl : (ExtractFields.pagesPass possible m.pages.enum
          (byId, [])).2.lookup gid with _ | d
      · exfalso
        have : ExtractFields.radioContribs m gid = [] := by
          simpa [ExtractFields.RadioInv, ExtractFields.annotPass, hrl]
            using hRI
        exact hnz this
      · have hfacts : d.field_id = gid ∧ d.type = "radio_group" ∧
            d.radio_options = some (ExtractFields.radioContribs m gid) ∧
            ExtractFields.radioContribs m gid ≠ [] := by
          simpa [ExtractFields.RadioInv, ExtractFields.annotPass, hrl]
            using hRI
        refine ⟨d, ?_, hfacts.1, hfacts.2.1, hfacts.2.2.1⟩
        rw [← hout]
        refine (List.perm_insertionSort _ _).mem_iff.mpr ?_
        refine List.mem_append.mpr (Or.inr ?_)
        exact List.mem_map.mpr ⟨(gid, d), lookup_mem hrl, rfl⟩
    · intro hz d hd hdf
      rw [← hout] at hd
      have hd' := (List.perm_insertionSort _ _).mem_iff.mp hd
      rcases List.mem_append.mp hd' with hdl | hdr
      · obtain ⟨hdm, _⟩ := List.mem_filter.mp hdl
        obtain ⟨p, hpmem, hpd⟩ := List.mem_map.mp hdm
        have hk : p.1 = gid := by
          rw [← hdf, ← hpd]
          exact (hfidinv p hpmem).symm
        have : (p.1, p.2) ∉ (ExtractFields.pagesPass possible m.pages.enum
            (byId, [])).1 := hk ▸ not_mem_of_lookup_eq_none hnotin2 p.2
        exact this hpmem
      · obtain ⟨p, hpmem, hpd⟩ := List.mem_map.mp hdr
        have hk : p.1 = gid := by
          rw [← hdf, ← hpd]
          exact (hradfid p hpmem).symm
        rcases hrl : (ExtractFields.pagesPass possible m.pages.enum
            (byId, [])).2.lookup gid with _ | d2
        · have : (p.1, p.2) ∉ (ExtractFields.pagesPass possible m.pages.enum
              (byId, [])).2 := hk ▸ not_mem_of_lookup_eq_none hrl p.2
          exact this hpmem
        · have hfacts : d2.field_id = gid ∧ d2.type = "radio_group" ∧
              d2.radio_options = some (ExtractFields.radioContribs m gid) ∧
              ExtractFields.radioContribs m gid ≠ [] := by
            simpa [ExtractFields.RadioInv, ExtractFields.annotPass, hrl]
              using hRI
          exact hfacts.2.2.2 hz

/-- Witness for C5 at `mC5W`: the two unambiguous widgets of `G` are its
exact recovered options; the ambiguous widget contributes nothing. -/
theorem C5_radio_group_inference_witness :
    ∃ d ∈ ExtractFields.outC5W,
      (d : ExtractFields.Desc).field_id = "G" ∧
        d.type = "radio_group" ∧
        d.radio_options
          = some (ExtractFields.radioContribs ExtractFields.mC5W "G") :=
  (C5_radio_group_inference ExtractFields.mC5W "G"
    ⟨true, some "/Btn", [], []⟩ ExtractFields.outC5W []
    (by decide) (by decide) rfl rfl (by decide)).1 (by decide)
